import Mathlib

/-!
VMsim: a demand-paging simulator (src/VMsim.c)

A shallow embedding of the frame table, the single-slot request mailbox and the
request handlers of `VMsim.c`, followed by theorems about them.

Conventions of the embedding.

* C `int` values are `Int`.  The only arithmetic of the program is
  `value / p_size` and `value % p_size` (C truncating division, `Int.tdiv` and
  `Int.tmod`); for a divisor `p_size ≥ 1` neither can leave the range of `int`.
* The three arrays of the manager (`frames`, `counters`, `pid`) are lists; a
  table is well formed (`mmanager_t.wf`) when each has `f_num` cells, which is
  what `init_mmanager` allocates.  A read or write outside the arrays is
  undefined in C; here such a read yields `0` and such a write does nothing, and
  the theorems that depend on an access say that it is in bounds.
* A loop `for (int i = 0; i < m->f_num; i++)` is a recursion on the number of
  iterations still to run, started with `f_num` of them at `i = 0`.
* The shared variables of the program (`mutex`, `request`, `m_response`,
  `PHYSICAL_FRAME`) and the manager they are used with form one record,
  `shared_t`.  Its last field, `effects`, is not a variable of the program: it
  records, in order, the effects performed by `handle_request`, `handle_fault`
  and the functions they call, so that statements about what was done, how
  often and in which order can be written down.
* `gettimeofday` is an input: `set_frame` receives the `tv_usec` it reads.
* `sem_wait` on a semaphore that is `0` blocks; a handler that would block has
  no result (`none`).
* `clone(handle_fault, ...)` starts the fault handler as a second thread; the
  manager cannot pass its next `sem_wait(mutex)` before that thread has posted
  `mutex`, so the handling of one request is the sequence `handle_request`, then
  `handle_fault` when it was started (`serve`).
-/

namespace VMsim

/-! ## Data model -/

/-- The virtual pager `vpager_t` (the file handle and the stack are left out). -/
structure vpager_t where
  p_size : Int
  p_num : Int
  id : Int
  active : Int
deriving DecidableEq

/-- The memory manager `mmanager_t`. -/
structure mmanager_t where
  f_size : Int
  f_num : Int
  frames : List Int
  counters : List Int
  pid : List Int
  pagers_num : Int
  pagers : List vpager_t
deriving DecidableEq

/-- The page request `prequest_t`. -/
structure prequest_t where
  pid : Int
  address : Int
  page : Int
  offset : Int
deriving DecidableEq

/-- The effects a handler performs, in the order of the statements of the source. -/
inductive effect_t where
  | wait_mutex
  | post_mutex
  | frame_write (frame pid page : Int)
  | publish_frame (frame : Int)
  | post_response
  | request_cleared
  | fault_started
deriving DecidableEq

/-- The shared variables of the program together with the manager, and the
record of the effects performed so far. -/
structure shared_t where
  m : mmanager_t
  request : prequest_t
  mutex : Nat
  m_response : Nat
  PHYSICAL_FRAME : Int
  effects : List effect_t
deriving DecidableEq

/-- The three arrays of a manager have `f_num` cells each. -/
def mmanager_t.wf (m : mmanager_t) : Prop :=
  (m.frames.length : Int) = m.f_num ∧ (m.counters.length : Int) = m.f_num ∧
    (m.pid.length : Int) = m.f_num

instance (m : mmanager_t) : Decidable m.wf := by
  unfold mmanager_t.wf; infer_instance

/-- The array write `a[i] = v`. -/
def store (a : List Int) (i : Int) (v : Int) : List Int :=
  if 0 ≤ i then a.set i.toNat v else a

/-- The array read `a[i]` at an `int` index. -/
def load (a : List Int) (i : Int) : Int :=
  if 0 ≤ i then a.getD i.toNat 0 else 0

/-! ## Request mailbox -/

/-- The slot as `init_request` leaves it: `request->pid = -1`.  The other three
fields are not initialised by the source; they are taken as a parameter. -/
def init_request (r : prequest_t) : prequest_t :=
  { r with pid := -1 }

/-- The function `set_request`: sets the values of the provided request. -/
def set_request (p : vpager_t) (_r : prequest_t) (value : Int) : prequest_t :=
  { pid := p.id
    address := value
    offset := value.tmod p.p_size
    page := value.tdiv p.p_size }

/-- The function `submit_request`: only sets the request if it is not set.  Returns the
`int` result and the slot afterwards. -/
def submit_request (p : vpager_t) (request : prequest_t) (value : Int) : Int × prequest_t :=
  if request.pid ≠ -1 then (-1, request)
  else (0, set_request p request value)

/-- The function `clear_request`: `request->pid = -1`. -/
def clear_request (w : shared_t) : shared_t :=
  { w with request := { w.request with pid := -1 },
           effects := w.effects ++ [effect_t.request_cleared] }

/-! ## Frame table -/

/-- The function `init_mmanager`: a table of `F` cells, each array filled with `-1`.
The field `pagers` is assigned by `main` afterwards. -/
def init_mmanager (S F n : Int) : mmanager_t :=
  { f_size := S
    f_num := F
    frames := List.replicate F.toNat (-1)
    counters := List.replicate F.toNat (-1)
    pid := List.replicate F.toNat (-1)
    pagers_num := n
    pagers := [] }

/-- The loop of `find_frame` with `n` iterations left, at index `i`. -/
def find_frame_loop (m : mmanager_t) (pid page : Int) : Nat → Nat → Int
  | 0, _ => -1
  | n + 1, i =>
    if m.frames.getD i 0 = page ∧ m.pid.getD i 0 = pid then (i : Int)
    else find_frame_loop m pid page n (i + 1)

/-- The function `find_frame`: the index of the frame with the given page and pid. -/
def find_frame (m : mmanager_t) (pid page : Int) : Int :=
  find_frame_loop m pid page m.f_num.toNat 0

/-- The loop of `find_lru` with `n` iterations left, at index `i`, with the
current `min_i`. -/
def find_lru_loop (m : mmanager_t) : Nat → Nat → Nat → Nat
  | 0, _, min_i => min_i
  | n + 1, i, min_i =>
    if m.counters.getD i 0 < m.counters.getD min_i 0 then find_lru_loop m n (i + 1) i
    else find_lru_loop m n (i + 1) min_i

/-- The function `find_lru`: using the counter method of lru. -/
def find_lru (m : mmanager_t) : Int :=
  (find_lru_loop m m.f_num.toNat 0 0 : Nat)

/-- The loop of `find_free` with `n` iterations left, at index `i`. -/
def find_free_loop (m : mmanager_t) : Nat → Nat → Int
  | 0, _ => -1
  | n + 1, i =>
    if m.frames.getD i 0 = -1 then (i : Int)
    else find_free_loop m n (i + 1)

/-- The function `find_free`: the index of the first unset frame. -/
def find_free (m : mmanager_t) : Int :=
  find_free_loop m m.f_num.toNat 0

/-- The function `set_frame`: sets the page, counter and pid values of the frame index,
publishes the index in `PHYSICAL_FRAME` and posts `m_response`.  `tv_usec` is
the microsecond field `gettimeofday` returned. -/
def set_frame (w : shared_t) (frame pid page tv_usec : Int) : shared_t :=
  { w with
    m := { w.m with
           frames := store w.m.frames frame page
           counters := store w.m.counters frame tv_usec
           pid := store w.m.pid frame pid }
    PHYSICAL_FRAME := frame
    m_response := w.m_response + 1
    effects := w.effects ++
      [effect_t.frame_write frame pid page, effect_t.publish_frame frame,
       effect_t.post_response] }

/-! ## Semaphores -/

/-- The call `sem_wait`: takes a permit; with none available the caller blocks. -/
def sem_wait (s : Nat) : Option Nat :=
  if s = 0 then none else some (s - 1)

/-- The call `sem_post`: gives a permit back. -/
def sem_post (s : Nat) : Nat := s + 1

/-! ## Handlers -/

/-- The function `handle_request`.  The result is the shared state when the function returns
and whether it started the fault handler (`clone(handle_fault, ...)`).
`tv_usec` is read only when `set_frame` is called, on the hit path. -/
def handle_request (w : shared_t) (tv_usec : Int) : Option (shared_t × Bool) :=
  match sem_wait w.mutex with
  | none => none
  | some permits =>
    let w1 : shared_t :=
      { w with mutex := permits, effects := w.effects ++ [effect_t.wait_mutex] }
    let frame := find_frame w1.m w1.request.pid w1.request.page
    if frame = -1 then
      some ({ w1 with effects := w1.effects ++ [effect_t.fault_started] }, true)
    else
      let w2 := set_frame w1 frame w1.request.pid w1.request.page tv_usec
      let w3 := clear_request w2
      some ({ w3 with mutex := sem_post w3.mutex,
                      effects := w3.effects ++ [effect_t.post_mutex] }, false)

/-- The frame `handle_fault` chooses: the first free frame, the lru frame if
there is no free frame. -/
def fault_frame (m : mmanager_t) : Int :=
  if find_free m = -1 then find_lru m else find_free m

/-- The function `handle_fault`, the body of the thread started on a miss (the `printf`
calls and the `usleep` are left out). -/
def handle_fault (w : shared_t) (tv_usec : Int) : shared_t :=
  let free_frame := fault_frame w.m
  let w1 := set_frame w free_frame w.request.pid w.request.page tv_usec
  let w2 := clear_request w1
  { w2 with mutex := sem_post w2.mutex, effects := w2.effects ++ [effect_t.post_mutex] }

/-- The handling of one held request: `handle_request`, then the fault handler
when `handle_request` started it. -/
def serve (w : shared_t) (tv_usec : Int) : Option shared_t :=
  match handle_request w tv_usec with
  | none => none
  | some (w1, true) => some (handle_fault w1 tv_usec)
  | some (w1, false) => some w1

/-! ## Pagers and whole runs -/

/-- The function `init_vpager`: a pager for the trace file number `file_num`, running
(`active = 0`). -/
def init_vpager (S P file_num : Int) : vpager_t :=
  { p_size := S, p_num := P, id := file_num, active := 0 }

/-- The function `start_vpagers`: the pagers `1 .. n`. -/
def start_vpagers (n S P : Int) : List vpager_t :=
  (List.range n.toNat).map (fun i => init_vpager S P ((i : Int) + 1))

/-- The shared state when `main` calls `manage`: `mutex` holds one permit,
`m_response` none, the slot is empty, the table is the one of `init_mmanager`.
`r0` is the content of the block `init_request` allocates. -/
def main_init (S P F n : Int) (r0 : prequest_t) : shared_t :=
  { m := { init_mmanager S F n with pagers := start_vpagers n S P }
    request := init_request r0
    mutex := 1
    m_response := 0
    PHYSICAL_FRAME := -1
    effects := [] }

/-- The first half of an iteration of `read_all`: under `mutex`, the pager
submits `value`.  There is a result when the submission succeeded. -/
def pager_submit (w : shared_t) (p : vpager_t) (value : Int) : Option shared_t :=
  match sem_wait w.mutex with
  | none => none
  | some permits =>
    let res := submit_request p w.request value
    if res.1 = -1 then none
    else some { w with request := res.2, mutex := sem_post permits }

/-- One request from submission to response: the pager submits `value`, the
manager serves the held request, the pager passes `sem_wait(m_response)`. -/
def round (w : shared_t) (p : vpager_t) (value tv_usec : Int) : Option shared_t :=
  match pager_submit w p value with
  | none => none
  | some w1 =>
    match serve w1 tv_usec with
    | none => none
    | some w2 =>
      match sem_wait w2.m_response with
      | none => none
      | some signals => some { w2 with m_response := signals }

/-- A sequence of rounds; each item is the pager, the trace value it submits
and the `tv_usec` read while the request is handled. -/
def run (w : shared_t) : List (vpager_t × Int × Int) → Option shared_t
  | [] => some w
  | (p, value, tv_usec) :: rest =>
    match round w p value tv_usec with
    | none => none
    | some w1 => run w1 rest

/-! ## Reading the record of effects -/

/-- The pid and page of the most recent `set_frame` call on `frame`, if any. -/
def last_assign (es : List effect_t) (frame : Int) : Option (Int × Int) :=
  es.foldl
    (fun acc e =>
      match e with
      | effect_t.frame_write f pid page => if f = frame then some (pid, page) else acc
      | _ => acc)
    none

/-- An effect is a frame assignment. -/
def is_frame_write : effect_t → Bool
  | effect_t.frame_write _ _ _ => true
  | _ => false

/-- The number of frame assignments in a list of effects. -/
def count_assign (es : List effect_t) : Nat := es.countP is_frame_write

/-- The number of posts of `m_response` in a list of effects. -/
def count_response (es : List effect_t) : Nat := es.count effect_t.post_response

/-! ## Tables and states used to evaluate the code -/

/-- A cell `j` of the table holds `page` for `pid`. -/
def holds (m : mmanager_t) (pid page : Int) (j : Nat) : Prop :=
  m.frames.getD j 0 = page ∧ m.pid.getD j 0 = pid

instance (m : mmanager_t) (pid page : Int) (j : Nat) : Decidable (holds m pid page j) := by
  unfold holds; infer_instance

/-- A small table: three frames, the middle one empty, the counters of frames
1 and 2 equal. -/
def table3 : mmanager_t :=
  { f_size := 100, f_num := 3, frames := [5, -1, 7], counters := [9, 3, 3],
    pid := [1, -1, 2], pagers_num := 2, pagers := [] }

/-- A state over `table3` holding the request `req`, `mutex` free. -/
def shared3 (req : prequest_t) : shared_t :=
  { m := table3, request := req, mutex := 1, m_response := 0, PHYSICAL_FRAME := -1,
    effects := [] }

/-- Pager 1 with page size 100. -/
def pager1 : vpager_t := init_vpager 100 4 1

/-- Pager 2 with page size 100. -/
def pager2 : vpager_t := init_vpager 100 4 2

/-- The content of the request block before `init_request`. -/
def block0 : prequest_t := { pid := 0, address := 0, page := 0, offset := 0 }

/-- Scenario B (page size 100, one frame, one pager, trace `[10, 200]`): the
state at the start. -/
def scenB_start : shared_t := main_init 100 4 1 1 block0

/-- Scenario B: the first request, address 10, is held. -/
def scenB_first : shared_t := (pager_submit scenB_start pager1 10).getD scenB_start

/-- Scenario B: the first request has been answered (`tv_usec = 5`). -/
def scenB_mid : shared_t := (round scenB_start pager1 10 5).getD scenB_start

/-- Scenario B: the second request, address 200, is held. -/
def scenB_second : shared_t := (pager_submit scenB_mid pager1 200).getD scenB_mid

/-- Scenario A (page size 100, two frames, one pager, trace `[50, 150, 50]`):
the state at the start. -/
def scenA_start : shared_t := main_init 100 4 2 1 block0

/-- Scenario A: the first two requests have been answered (`tv_usec` 10 and 20). -/
def scenA_two : shared_t :=
  (run scenA_start [(pager1, 50, 10), (pager1, 150, 20)]).getD scenA_start

/-- Scenario A: the third request, address 50 again, is held. -/
def scenA_third : shared_t := (pager_submit scenA_two pager1 50).getD scenA_two

/-- The range of a C `int`. -/
def in_int_range (x : Int) : Prop := -2147483648 ≤ x ∧ x ≤ 2147483647

instance (x : Int) : Decidable (in_int_range x) := by
  unfold in_int_range; infer_instance

/-- The condition that holds of the shared state whenever no request is being
handled: `mutex` is free, the slot is empty, the cells `0 .. f_num - 1` of the
table exist, and each of them either was never assigned and has no owner, or
holds the pid and page of the most recent `set_frame` call on it. -/
def between_rounds (w : shared_t) : Prop :=
  0 < w.mutex ∧ w.request.pid = -1 ∧
  (∀ j : Nat, (j : Int) < w.m.f_num → j < w.m.frames.length ∧ j < w.m.pid.length) ∧
  ∀ j : Nat, (j : Int) < w.m.f_num →
    (last_assign w.effects j = none ∧ w.m.pid.getD j 0 = -1) ∨
    last_assign w.effects j = some (w.m.pid.getD j 0, w.m.frames.getD j 0)

/-! ## Termination test of the manager -/

/-- The flag `m->pagers[i]->active`. -/
def pager_active (m : mmanager_t) (i : Nat) : Int :=
  match m.pagers[i]? with
  | some p => p.active
  | none => 0

/-- The loop of `pagers_finished` with `n` iterations left, at index `i`. -/
def pagers_finished_loop (m : mmanager_t) : Nat → Nat → Int
  | 0, _ => 0
  | n + 1, i =>
    if pager_active m i = 0 then -1
    else pagers_finished_loop m n (i + 1)

/-- The function `pagers_finished`: checks if all pagers have finished. -/
def pagers_finished (m : mmanager_t) : Int :=
  pagers_finished_loop m m.pagers_num.toNat 0

/-- One iteration of the loop of `manage`: under `mutex` read the pid of the
slot, call `handle_request` when a request is held, then test
`pagers_finished`.  The result is the state at the end of the iteration and
whether the loop is left (`break`). -/
def manage_iteration (w : shared_t) (tv_usec : Int) : Option (shared_t × Bool) :=
  match sem_wait w.mutex with
  | none => none
  | some permits =>
    let pid := w.request.pid
    let w1 : shared_t := { w with mutex := sem_post permits }
    let handled : Option shared_t :=
      if pid ≠ -1 then (handle_request w1 tv_usec).map (fun r => r.1) else some w1
    match handled with
    | none => none
    | some w2 => some (w2, decide (pagers_finished w2.m ≠ -1))

/-! ## Order of effects -/

/-- In the list `es` the effect `a` occurs, and `b` occurs later than the
first `a`. -/
def before (a b : effect_t) (es : List effect_t) : Prop :=
  es.indexOf a < es.indexOf b ∧ es.indexOf b < es.length

instance (a b : effect_t) (es : List effect_t) : Decidable (before a b es) := by
  unfold before; infer_instance

/-- The number of posts of `mutex` in a list of effects. -/
def count_release (es : List effect_t) : Nat := es.count effect_t.post_mutex

/-- The number of `clear_request` calls in a list of effects. -/
def count_cleared (es : List effect_t) : Nat := es.count effect_t.request_cleared

/-- A state over `table3` with a list of pagers: pager 1 has finished, pager 2
is running. -/
def shared3_pagers (req : prequest_t) : shared_t :=
  { shared3 req with
    m := { table3 with pagers := [{ pager1 with active := -1 }, pager2] } }

/-! ## Whole runs: outcomes and table conditions -/

/-- Whether the request `value` of pager `p`, submitted in state `w`, makes
`handle_request` start the fault handler. -/
def faulted (w : shared_t) (p : vpager_t) (value tv_usec : Int) : Bool :=
  match pager_submit w p value with
  | none => false
  | some w1 =>
    match handle_request w1 tv_usec with
    | none => false
    | some r => r.2

/-- A sequence of rounds as `run`, returning for each request the frame index
published in `PHYSICAL_FRAME` and whether the request faulted. -/
def run_outcomes (w : shared_t) : List (vpager_t × Int × Int) → Option (List (Int × Bool))
  | [] => some []
  | (p, value, tv_usec) :: rest =>
    match round w p value tv_usec with
    | none => none
    | some w1 =>
      (run_outcomes w1 rest).map
        (fun os => (w1.PHYSICAL_FRAME, faulted w p value tv_usec) :: os)

/-- The pair (pid, page) a request names: the pager's id and
`address / pageSize`. -/
def pair_of (r : vpager_t × Int × Int) : Int × Int :=
  (r.1.id, r.2.1.tdiv r.1.p_size)

/-- The distinct pairs seen so far, in the order of first appearance, after
one more pair. -/
def note_pair (ds : List (Int × Int)) (q : Int × Int) : List (Int × Int) :=
  if q ∈ ds then ds else ds ++ [q]

/-- The distinct pairs of a sequence, in the order of first appearance. -/
def first_seen (qs : List (Int × Int)) : List (Int × Int) :=
  qs.foldl note_pair []

/-- The index of the first occurrence of `q` in `ds` (the length of `ds` when
there is none). -/
def position (q : Int × Int) : List (Int × Int) → Nat
  | [] => 0
  | x :: xs => if x = q then 0 else position q xs + 1

/-- The outcomes the specification describes, given the distinct pairs `ds`
already loaded: the `j`-th distinct pair (counting from 0) faults into frame
`j`; a request for a pair already loaded is a hit that publishes the frame the
pair was loaded into. -/
def expected_outcomes (ds : List (Int × Int)) :
    List (vpager_t × Int × Int) → List (Int × Bool)
  | [] => []
  | r :: rest =>
    ((position (pair_of r) (note_pair ds (pair_of r)) : Nat), decide (pair_of r ∉ ds)) ::
      expected_outcomes (note_pair ds (pair_of r)) rest

/-- The cells `0 .. f_num - 1` of the arrays `frames`, `counters` and `pid`
exist. -/
def cells_exist (m : mmanager_t) : Prop :=
  ∀ j : Nat, (j : Int) < m.f_num →
    j < m.frames.length ∧ j < m.counters.length ∧ j < m.pid.length

/-- Entry `j` of the table is fully empty (the three fields are `-1`) or fully
populated (none of the three fields is `-1`). -/
def entry_whole (m : mmanager_t) (j : Nat) : Prop :=
  (m.frames.getD j 0 = -1 ∧ m.pid.getD j 0 = -1 ∧ m.counters.getD j 0 = -1) ∨
  (m.frames.getD j 0 ≠ -1 ∧ m.pid.getD j 0 ≠ -1 ∧ m.counters.getD j 0 ≠ -1)

instance (m : mmanager_t) (j : Nat) : Decidable (entry_whole m j) := by
  unfold entry_whole; infer_instance

/-- No (pid, page) pair is resident in two frames of the table. -/
def no_double (m : mmanager_t) : Prop :=
  ∀ i j : Nat, (i : Int) < m.f_num → (j : Int) < m.f_num → i ≠ j →
    m.pid.getD i 0 ≠ -1 →
    ¬ (m.pid.getD i 0 = m.pid.getD j 0 ∧ m.frames.getD i 0 = m.frames.getD j 0)

/-- The table of a state between rounds holds exactly the distinct pairs `ds`,
the `j`-th of them in frame `j`, and every further frame is empty. -/
def loaded_in_order (w : shared_t) (ds : List (Int × Int)) : Prop :=
  0 < w.mutex ∧ w.request.pid = -1 ∧ cells_exist w.m ∧
  (ds.length : Int) ≤ w.m.f_num ∧
  (∀ (j : Nat) (q : Int × Int), ds[j]? = some q →
    w.m.pid.getD j 0 = q.1 ∧ w.m.frames.getD j 0 = q.2) ∧
  (∀ j : Nat, ds.length ≤ j → (j : Int) < w.m.f_num → w.m.frames.getD j 0 = -1) ∧
  ds.Nodup ∧ ∀ q ∈ ds, q.2 ≠ -1

/-! ## The three scans of the frame table -/

theorem find_frame_loop_spec (m : mmanager_t) (pid page : Int) : ∀ n i : Nat,
    (find_frame_loop m pid page n i = -1 ∧
        ∀ j, i ≤ j → j < i + n → ¬ holds m pid page j) ∨
    (∃ k : Nat, find_frame_loop m pid page n i = (k : Int) ∧ i ≤ k ∧ k < i + n ∧
        holds m pid page k ∧ ∀ j, i ≤ j → j < k → ¬ holds m pid page j) := by
  intro n
  induction n with
  | zero =>
    intro i
    left
    refine ⟨rfl, ?_⟩
    intro j h1 h2
    omega
  | succ n ih =>
    intro i
    by_cases hc : m.frames.getD i 0 = page ∧ m.pid.getD i 0 = pid
    · right
      refine ⟨i, ?_, le_refl i, by omega, hc, ?_⟩
      · simp only [find_frame_loop, if_pos hc]
      · intro j h1 h2
        omega
    · have hstep : find_frame_loop m pid page (n + 1) i = find_frame_loop m pid page n (i + 1) := by
        simp only [find_frame_loop, if_neg hc]
      rw [hstep]
      rcases ih (i + 1) with ⟨h1, h2⟩ | ⟨k, h1, h2, h3, h4, h5⟩
      · left
        refine ⟨h1, ?_⟩
        intro j hj1 hj2
        by_cases hji : j = i
        · subst hji; exact hc
        · exact h2 j (by omega) (by omega)
      · right
        refine ⟨k, h1, by omega, by omega, h4, ?_⟩
        intro j hj1 hj2
        by_cases hji : j = i
        · subst hji; exact hc
        · exact h5 j (by omega) hj2

theorem find_free_loop_spec (m : mmanager_t) : ∀ n i : Nat,
    (find_free_loop m n i = -1 ∧
        ∀ j, i ≤ j → j < i + n → m.frames.getD j 0 ≠ -1) ∨
    (∃ k : Nat, find_free_loop m n i = (k : Int) ∧ i ≤ k ∧ k < i + n ∧
        m.frames.getD k 0 = -1 ∧ ∀ j, i ≤ j → j < k → m.frames.getD j 0 ≠ -1) := by
  intro n
  induction n with
  | zero =>
    intro i
    left
    refine ⟨rfl, ?_⟩
    intro j h1 h2
    omega
  | succ n ih =>
    intro i
    by_cases hc : m.frames.getD i 0 = -1
    · right
      refine ⟨i, ?_, le_refl i, by omega, hc, ?_⟩
      · simp only [find_free_loop, if_pos hc]
      · intro j h1 h2
        omega
    · have hstep : find_free_loop m (n + 1) i = find_free_loop m n (i + 1) := by
        simp only [find_free_loop, if_neg hc]
      rw [hstep]
      rcases ih (i + 1) with ⟨h1, h2⟩ | ⟨k, h1, h2, h3, h4, h5⟩
      · left
        refine ⟨h1, ?_⟩
        intro j hj1 hj2
        by_cases hji : j = i
        · subst hji; exact hc
        · exact h2 j (by omega) (by omega)
      · right
        refine ⟨k, h1, by omega, by omega, h4, ?_⟩
        intro j hj1 hj2
        by_cases hji : j = i
        · subst hji; exact hc
        · exact h5 j (by omega) hj2

theorem find_lru_loop_spec (m : mmanager_t) : ∀ n i min_i : Nat,
    (∀ j, j < i → m.counters.getD min_i 0 ≤ m.counters.getD j 0) →
    (∀ j, j < min_i → m.counters.getD min_i 0 < m.counters.getD j 0) →
    min_i ≤ i →
    (∀ j, j < i + n →
        m.counters.getD (find_lru_loop m n i min_i) 0 ≤ m.counters.getD j 0) ∧
    (∀ j, j < find_lru_loop m n i min_i →
        m.counters.getD (find_lru_loop m n i min_i) 0 < m.counters.getD j 0) ∧
    (find_lru_loop m n i min_i = min_i ∨
        (i ≤ find_lru_loop m n i min_i ∧ find_lru_loop m n i min_i < i + n)) := by
  intro n
  induction n with
  | zero =>
    intro i min_i h1 h2 _
    refine ⟨?_, ?_, Or.inl rfl⟩
    · intro j hj
      exact h1 j (by omega)
    · intro j hj
      exact h2 j hj
  | succ n ih =>
    intro i min_i h1 h2 h3
    by_cases hc : m.counters.getD i 0 < m.counters.getD min_i 0
    · have hstep : find_lru_loop m (n + 1) i min_i = find_lru_loop m n (i + 1) i := by
        simp only [find_lru_loop, if_pos hc]
      rw [hstep]
      have hlt : ∀ j, j < i → m.counters.getD i 0 < m.counters.getD j 0 := by
        intro j hj
        exact lt_of_lt_of_le hc (h1 j hj)
      have hle : ∀ j, j < i + 1 → m.counters.getD i 0 ≤ m.counters.getD j 0 := by
        intro j hj
        by_cases hji : j = i
        · subst hji; exact le_refl _
        · exact le_of_lt (hlt j (by omega))
      obtain ⟨r1, r2, r3⟩ := ih (i + 1) i hle hlt (by omega)
      refine ⟨?_, r2, ?_⟩
      · intro j hj
        exact r1 j (by omega)
      · right
        rcases r3 with r3 | r3
        · rw [r3]; omega
        · omega
    · have hstep : find_lru_loop m (n + 1) i min_i = find_lru_loop m n (i + 1) min_i := by
        simp only [find_lru_loop, if_neg hc]
      rw [hstep]
      have hle : ∀ j, j < i + 1 → m.counters.getD min_i 0 ≤ m.counters.getD j 0 := by
        intro j hj
        by_cases hji : j = i
        · subst hji; exact not_lt.mp hc
        · exact h1 j (by omega)
      obtain ⟨r1, r2, r3⟩ := ih (i + 1) min_i hle h2 (by omega)
      refine ⟨?_, r2, ?_⟩
      · intro j hj
        exact r1 j (by omega)
      · rcases r3 with r3 | r3
        · left; exact r3
        · right; omega

/-- The result of `find_frame` is `-1` or an index of the table. -/
theorem find_frame_cases (m : mmanager_t) (pid page : Int) :
    (find_frame m pid page = -1 ∧
        ∀ j : Nat, (j : Int) < m.f_num → ¬ holds m pid page j) ∨
    (∃ k : Nat, find_frame m pid page = (k : Int) ∧ (k : Int) < m.f_num ∧
        holds m pid page k ∧ ∀ j, j < k → ¬ holds m pid page j) := by
  unfold find_frame
  rcases find_frame_loop_spec m pid page m.f_num.toNat 0 with ⟨h1, h2⟩ | ⟨k, h1, _, h3, h4, h5⟩
  · left
    refine ⟨h1, ?_⟩
    intro j hj
    exact h2 j (Nat.zero_le j) (by omega)
  · right
    refine ⟨k, h1, by omega, h4, ?_⟩
    intro j hj
    exact h5 j (Nat.zero_le j) hj

/-- The result of `find_free` is `-1` or an index of the table. -/
theorem find_free_cases (m : mmanager_t) :
    (find_free m = -1 ∧ ∀ j : Nat, (j : Int) < m.f_num → m.frames.getD j 0 ≠ -1) ∨
    (∃ k : Nat, find_free m = (k : Int) ∧ (k : Int) < m.f_num ∧
        m.frames.getD k 0 = -1 ∧ ∀ j, j < k → m.frames.getD j 0 ≠ -1) := by
  unfold find_free
  rcases find_free_loop_spec m m.f_num.toNat 0 with ⟨h1, h2⟩ | ⟨k, h1, _, h3, h4, h5⟩
  · left
    refine ⟨h1, ?_⟩
    intro j hj
    exact h2 j (Nat.zero_le j) (by omega)
  · right
    refine ⟨k, h1, by omega, h4, ?_⟩
    intro j hj
    exact h5 j (Nat.zero_le j) hj

/-- The frame `find_lru` returns, as a natural number. -/
theorem find_lru_cases (m : mmanager_t) (hF : 1 ≤ m.f_num) :
    ∃ k : Nat, find_lru m = (k : Int) ∧ (k : Int) < m.f_num ∧
      (∀ i : Nat, (i : Int) < m.f_num → m.counters.getD k 0 ≤ m.counters.getD i 0) ∧
      (∀ i : Nat, i < k → m.counters.getD k 0 < m.counters.getD i 0) := by
  have hinit1 : ∀ j, j < 0 → m.counters.getD 0 0 ≤ m.counters.getD j 0 := by
    intro j hj; omega
  have hinit2 : ∀ j, j < 0 → m.counters.getD 0 0 < m.counters.getD j 0 := by
    intro j hj; omega
  obtain ⟨r1, r2, r3⟩ := find_lru_loop_spec m m.f_num.toNat 0 0 hinit1 hinit2 (le_refl 0)
  refine ⟨find_lru_loop m m.f_num.toNat 0 0, rfl, ?_, ?_, r2⟩
  · rcases r3 with r3 | r3
    · rw [r3]; omega
    · omega
  · intro i hi
    exact r1 i (by omega)

/-- C1: for a table of `F ≥ 1` frames `find_lru` returns an index `k` with
`0 ≤ k < F` whose counter is at most the counter of every frame and strictly
below the counter of every frame of lower index: the frame with the least
recency counter, the lowest index among ties. -/
theorem find_lru_global_min (m : mmanager_t) (hF : 1 ≤ m.f_num) :
    0 ≤ find_lru m ∧ find_lru m < m.f_num ∧
    (∀ i : Nat, (i : Int) < m.f_num →
        m.counters.getD (find_lru m).toNat 0 ≤ m.counters.getD i 0) ∧
    (∀ i : Nat, (i : Int) < find_lru m →
        m.counters.getD i 0 > m.counters.getD (find_lru m).toNat 0) := by
  obtain ⟨k, h1, h2, h3, h4⟩ := find_lru_cases m hF
  rw [h1]
  refine ⟨by omega, h2, ?_, ?_⟩
  · intro i hi
    simpa using h3 i hi
  · intro i hi
    simpa using h4 i (by omega)

theorem find_lru_global_min_witness :
    (1 : Int) ≤ table3.f_num ∧ find_lru table3 = 1 ∧
    (0 ≤ find_lru table3 ∧ find_lru table3 < table3.f_num ∧
    (∀ i : Nat, (i : Int) < table3.f_num →
        table3.counters.getD (find_lru table3).toNat 0 ≤ table3.counters.getD i 0) ∧
    (∀ i : Nat, (i : Int) < find_lru table3 →
        table3.counters.getD i 0 > table3.counters.getD (find_lru table3).toNat 0)) :=
  ⟨by decide, by decide, find_lru_global_min table3 (by decide)⟩

/-! ## Array writes -/

theorem length_store (a : List Int) (k v : Int) : (store a k v).length = a.length := by
  unfold store
  split <;> simp

theorem getD_store_same (a : List Int) (k : Nat) (v : Int) (h : k < a.length) :
    (store a (k : Int) v).getD k 0 = v := by
  unfold store
  simp [h]

theorem getD_store_other (a : List Int) (k v : Int) (j : Nat) (h : (j : Int) ≠ k) :
    (store a k v).getD j 0 = a.getD j 0 := by
  unfold store
  split
  · rename_i hk
    have hne : k.toNat ≠ j := by omega
    simp [List.getElem?_set, hne]
  · rfl

/-- C2: `find_frame` returns `-1` exactly when no frame of the table holds
`page` for `pid`; otherwise it returns the lowest index `i` in `[0,F)` with
`frames[i] = page` and `pid[i] = pid`.  A frame that holds the same page number
for another pid is never returned. -/
theorem find_frame_lowest_match (m : mmanager_t) (pid page : Int) :
    (find_frame m pid page = -1 ↔
        ∀ j : Nat, (j : Int) < m.f_num →
          ¬ (m.frames.getD j 0 = page ∧ m.pid.getD j 0 = pid)) ∧
    (find_frame m pid page ≠ -1 →
        0 ≤ find_frame m pid page ∧ find_frame m pid page < m.f_num ∧
        m.frames.getD (find_frame m pid page).toNat 0 = page ∧
        m.pid.getD (find_frame m pid page).toNat 0 = pid ∧
        ∀ j : Nat, (j : Int) < find_frame m pid page →
          ¬ (m.frames.getD j 0 = page ∧ m.pid.getD j 0 = pid)) ∧
    (∀ j : Nat, m.frames.getD j 0 = page → m.pid.getD j 0 ≠ pid →
        find_frame m pid page ≠ (j : Int)) := by
  rcases find_frame_cases m pid page with ⟨h1, h2⟩ | ⟨k, h1, h2, h3, h4⟩
  · refine ⟨⟨fun _ => h2, fun _ => h1⟩, fun h => absurd h1 h, ?_⟩
    intro j _ _
    rw [h1]
    omega
  · rw [h1]
    refine ⟨⟨?_, ?_⟩, ?_, ?_⟩
    · intro h
      omega
    · intro h
      exact absurd h3 (h k h2)
    · intro _
      refine ⟨by omega, h2, ?_, ?_, ?_⟩
      · simpa using h3.1
      · simpa using h3.2
      · intro j hj
        exact h4 j (by omega)
    · intro j hj1 hj2 hjk
      have hkj : k = j := by omega
      subst hkj
      exact hj2 h3.2

/-- C3: `find_free` returns `-1` exactly when no entry of the table is empty
(`frames[i] = -1`); otherwise it returns the lowest index `i` in `[0,F)` whose
entry is empty. -/
theorem find_free_lowest_empty (m : mmanager_t) :
    (find_free m = -1 ↔ ∀ j : Nat, (j : Int) < m.f_num → m.frames.getD j 0 ≠ -1) ∧
    (find_free m ≠ -1 →
        0 ≤ find_free m ∧ find_free m < m.f_num ∧
        m.frames.getD (find_free m).toNat 0 = -1 ∧
        ∀ j : Nat, (j : Int) < find_free m → m.frames.getD j 0 ≠ -1) := by
  rcases find_free_cases m with ⟨h1, h2⟩ | ⟨k, h1, h2, h3, h4⟩
  · exact ⟨⟨fun _ => h2, fun _ => h1⟩, fun h => absurd h1 h⟩
  · rw [h1]
    refine ⟨⟨?_, ?_⟩, ?_⟩
    · intro h
      omega
    · intro h
      exact absurd h3 (h k h2)
    · intro _
      refine ⟨by omega, h2, ?_, ?_⟩
      · simpa using h3
      · intro j hj
        exact h4 j (by omega)

/-! ## The two paths of `handle_request` -/

theorem sem_wait_pos (s : Nat) (h : 0 < s) : sem_wait s = some (s - 1) := by
  unfold sem_wait
  rw [if_neg (by omega)]

/-- On a miss `handle_request` takes the permit, starts the fault handler and
returns; it changes nothing else. -/
theorem handle_request_miss (w : shared_t) (tv_usec : Int) (hm : 0 < w.mutex)
    (hmiss : find_frame w.m w.request.pid w.request.page = -1) :
    handle_request w tv_usec =
      some ({ w with mutex := w.mutex - 1,
                     effects := w.effects ++ [effect_t.wait_mutex] ++ [effect_t.fault_started] },
            true) := by
  unfold handle_request
  rw [sem_wait_pos w.mutex hm]
  simp only [hmiss, if_true]

/-- On a hit `handle_request` assigns the frame found, clears the request and
gives the permit back. -/
theorem handle_request_hit (w : shared_t) (tv_usec : Int) (hm : 0 < w.mutex)
    (hhit : find_frame w.m w.request.pid w.request.page ≠ -1) :
    handle_request w tv_usec =
      some ({ m := { w.m with
                     frames := store w.m.frames
                       (find_frame w.m w.request.pid w.request.page) w.request.page
                     counters := store w.m.counters
                       (find_frame w.m w.request.pid w.request.page) tv_usec
                     pid := store w.m.pid
                       (find_frame w.m w.request.pid w.request.page) w.request.pid }
              request := { w.request with pid := -1 }
              mutex := w.mutex - 1 + 1
              m_response := w.m_response + 1
              PHYSICAL_FRAME := find_frame w.m w.request.pid w.request.page
              effects := w.effects ++ [effect_t.wait_mutex] ++
                [effect_t.frame_write (find_frame w.m w.request.pid w.request.page)
                   w.request.pid w.request.page,
                 effect_t.publish_frame (find_frame w.m w.request.pid w.request.page),
                 effect_t.post_response] ++
                [effect_t.request_cleared] ++ [effect_t.post_mutex] },
            false) := by
  unfold handle_request
  rw [sem_wait_pos w.mutex hm]
  simp only [hhit, if_false, set_frame, clear_request, sem_post]

/-- The state `handle_fault` leaves, field by field. -/
theorem handle_fault_eq (w : shared_t) (tv_usec : Int) :
    handle_fault w tv_usec =
      { m := { w.m with
               frames := store w.m.frames (fault_frame w.m) w.request.page
               counters := store w.m.counters (fault_frame w.m) tv_usec
               pid := store w.m.pid (fault_frame w.m) w.request.pid }
        request := { w.request with pid := -1 }
        mutex := w.mutex + 1
        m_response := w.m_response + 1
        PHYSICAL_FRAME := fault_frame w.m
        effects := w.effects ++
          [effect_t.frame_write (fault_frame w.m) w.request.pid w.request.page,
           effect_t.publish_frame (fault_frame w.m), effect_t.post_response] ++
          [effect_t.request_cleared] ++ [effect_t.post_mutex] } := by
  simp only [handle_fault, set_frame, clear_request, sem_post]

/-- The frame the fault handler chooses is a frame of the table when the table
has at least one frame. -/
theorem fault_frame_bounds (m : mmanager_t) (hF : 1 ≤ m.f_num) :
    ∃ k : Nat, fault_frame m = (k : Int) ∧ (k : Int) < m.f_num := by
  unfold fault_frame
  rcases find_free_cases m with ⟨h1, _⟩ | ⟨k, h1, h2, _, _⟩
  · rw [if_pos h1]
    obtain ⟨k, hk1, hk2, _, _⟩ := find_lru_cases m hF
    exact ⟨k, hk1, hk2⟩
  · have hne : find_free m ≠ -1 := by rw [h1]; omega
    rw [if_neg hne]
    exact ⟨k, h1, h2⟩

/-- On a miss the handling of a request is `handle_request` followed by
`handle_fault`. -/
theorem serve_miss (w : shared_t) (tv_usec : Int) (hm : 0 < w.mutex)
    (hmiss : find_frame w.m w.request.pid w.request.page = -1) :
    serve w tv_usec =
      some (handle_fault
        { w with mutex := w.mutex - 1,
                 effects := w.effects ++ [effect_t.wait_mutex] ++ [effect_t.fault_started] }
        tv_usec) := by
  unfold serve
  rw [handle_request_miss w tv_usec hm hmiss]

/-- On a hit the handling of a request is `handle_request` alone. -/
theorem serve_hit (w : shared_t) (tv_usec : Int) (hm : 0 < w.mutex)
    (hhit : find_frame w.m w.request.pid w.request.page ≠ -1) :
    ∃ w1, handle_request w tv_usec = some (w1, false) ∧ serve w tv_usec = some w1 := by
  refine ⟨_, handle_request_hit w tv_usec hm hhit, ?_⟩
  unfold serve
  rw [handle_request_hit w tv_usec hm hhit]

/-- C4: on a miss (`find_frame` returned `-1` for the pid and page of the held
request) the fault handler writes the request's pid and page into frame `k`,
where `k = find_free` when that is not `-1` and `k = find_lru` otherwise; the
page, owner and recency counter of every other frame are unchanged.  The table
is well formed with at least one frame and `mutex` is free, so that the handler
runs.  Scenario B is the witness of this theorem. -/
theorem fault_assigns_free_or_lru (w : shared_t) (tv_usec : Int)
    (hwf : w.m.wf) (hF : 1 ≤ w.m.f_num) (hm : 0 < w.mutex)
    (hmiss : find_frame w.m w.request.pid w.request.page = -1)
    (k : Int) (hk : k = if find_free w.m ≠ -1 then find_free w.m else find_lru w.m) :
    ∃ w1 w2, handle_request w tv_usec = some (w1, true) ∧ w2 = handle_fault w1 tv_usec ∧
      serve w tv_usec = some w2 ∧
      0 ≤ k ∧ k < w.m.f_num ∧
      w2.m.frames.getD k.toNat 0 = w.request.page ∧
      w2.m.pid.getD k.toNat 0 = w.request.pid ∧
      w2.m.counters.getD k.toNat 0 = tv_usec ∧
      ∀ i : Nat, (i : Int) ≠ k →
        w2.m.frames.getD i 0 = w.m.frames.getD i 0 ∧
        w2.m.pid.getD i 0 = w.m.pid.getD i 0 ∧
        w2.m.counters.getD i 0 = w.m.counters.getD i 0 := by
  have hkf : k = fault_frame w.m := by
    rw [hk]
    unfold fault_frame
    by_cases h : find_free w.m = -1
    · simp [h]
    · simp [h]
  obtain ⟨kn, hk1, hk2⟩ := fault_frame_bounds w.m hF
  obtain ⟨hl1, hl2, hl3⟩ := hwf
  refine ⟨_, _, handle_request_miss w tv_usec hm hmiss, rfl, serve_miss w tv_usec hm hmiss, ?_⟩
  rw [handle_fault_eq]
  simp only []
  rw [hkf, hk1]
  refine ⟨by omega, hk2, ?_, ?_, ?_, ?_⟩
  · simpa using getD_store_same w.m.frames kn w.request.page (by omega)
  · simpa using getD_store_same w.m.pid kn w.request.pid (by omega)
  · simpa using getD_store_same w.m.counters kn tv_usec (by omega)
  · intro i hi
    exact ⟨getD_store_other _ _ _ i hi, getD_store_other _ _ _ i hi,
      getD_store_other _ _ _ i hi⟩

theorem fault_assigns_free_or_lru_witness :
    (pager_submit scenB_start pager1 10 = some scenB_first ∧
      find_free scenB_first.m = 0 ∧
      round scenB_start pager1 10 5 = some scenB_mid ∧
      scenB_mid.m.frames = [0] ∧ scenB_mid.m.pid = [1] ∧
      pager_submit scenB_mid pager1 200 = some scenB_second ∧
      find_free scenB_second.m = -1 ∧ find_lru scenB_second.m = 0 ∧
      (serve scenB_second 7).map (fun w => (w.m.frames, w.m.pid, w.m.counters)) =
        some ([2], [1], [7])) ∧
    (∃ w1 w2, handle_request scenB_first 5 = some (w1, true) ∧ w2 = handle_fault w1 5 ∧
      serve scenB_first 5 = some w2 ∧
      (0 : Int) ≤ 0 ∧ 0 < scenB_first.m.f_num ∧
      w2.m.frames.getD (0 : Int).toNat 0 = scenB_first.request.page ∧
      w2.m.pid.getD (0 : Int).toNat 0 = scenB_first.request.pid ∧
      w2.m.counters.getD (0 : Int).toNat 0 = 5 ∧
      ∀ i : Nat, (i : Int) ≠ 0 →
        w2.m.frames.getD i 0 = scenB_first.m.frames.getD i 0 ∧
        w2.m.pid.getD i 0 = scenB_first.m.pid.getD i 0 ∧
        w2.m.counters.getD i 0 = scenB_first.m.counters.getD i 0) ∧
    (∃ w1 w2, handle_request scenB_second 7 = some (w1, true) ∧ w2 = handle_fault w1 7 ∧
      serve scenB_second 7 = some w2 ∧
      (0 : Int) ≤ 0 ∧ 0 < scenB_second.m.f_num ∧
      w2.m.frames.getD (0 : Int).toNat 0 = scenB_second.request.page ∧
      w2.m.pid.getD (0 : Int).toNat 0 = scenB_second.request.pid ∧
      w2.m.counters.getD (0 : Int).toNat 0 = 7 ∧
      ∀ i : Nat, (i : Int) ≠ 0 →
        w2.m.frames.getD i 0 = scenB_second.m.frames.getD i 0 ∧
        w2.m.pid.getD i 0 = scenB_second.m.pid.getD i 0 ∧
        w2.m.counters.getD i 0 = scenB_second.m.counters.getD i 0) :=
  ⟨by decide,
   fault_assigns_free_or_lru scenB_first 5 (by decide) (by decide) (by decide) (by decide)
     0 (by decide),
   fault_assigns_free_or_lru scenB_second 7 (by decide) (by decide) (by decide) (by decide)
     0 (by decide)⟩

/-- C5, as amended: on a hit `handle_request` calls `set_frame` on the frame
found, so the recency counter of that frame becomes the `tv_usec` read at that
moment; the recency counter of every other frame is the same after
`handle_request` as before it. -/
theorem hit_sets_counter_of_hit_frame (w : shared_t) (tv_usec : Int)
    (hwf : w.m.wf) (hm : 0 < w.mutex)
    (hhit : find_frame w.m w.request.pid w.request.page ≠ -1) :
    ∃ w1, handle_request w tv_usec = some (w1, false) ∧
      w1.m.counters.getD (find_frame w.m w.request.pid w.request.page).toNat 0 = tv_usec ∧
      ∀ i : Nat, (i : Int) ≠ find_frame w.m w.request.pid w.request.page →
        w1.m.counters.getD i 0 = w.m.counters.getD i 0 := by
  refine ⟨_, handle_request_hit w tv_usec hm hhit, ?_, ?_⟩
  · rcases find_frame_cases w.m w.request.pid w.request.page with ⟨h1, _⟩ | ⟨k, h1, h2, _, _⟩
    · exact absurd h1 hhit
    · obtain ⟨_, hl2, _⟩ := hwf
      simp only []
      rw [h1]
      simpa using getD_store_same w.m.counters k tv_usec (by omega)
  · intro i hi
    exact getD_store_other _ _ _ i hi

theorem hit_sets_counter_of_hit_frame_witness :
    ∃ w1, handle_request scenA_third 30 = some (w1, false) ∧
      w1.m.counters.getD
        (find_frame scenA_third.m scenA_third.request.pid scenA_third.request.page).toNat 0
        = 30 ∧
      ∀ i : Nat,
        (i : Int) ≠ find_frame scenA_third.m scenA_third.request.pid scenA_third.request.page →
        w1.m.counters.getD i 0 = scenA_third.m.counters.getD i 0 :=
  hit_sets_counter_of_hit_frame scenA_third 30 (by decide) (by decide) (by decide)

/-- Counterexample to C5 as stated.  Scenario A, third access: the request for
page 0 of pager 1 hits frame 0, whose counter was 10, and `handle_request`
leaves 30 there; so a hit does not keep every recency counter. -/
theorem hit_keeps_counters_counterexample :
    run scenA_start [(pager1, 50, 10), (pager1, 150, 20)] = some scenA_two ∧
    pager_submit scenA_two pager1 50 = some scenA_third ∧
    find_frame scenA_third.m scenA_third.request.pid scenA_third.request.page = 0 ∧
    scenA_third.m.counters = [10, 20] ∧
    (handle_request scenA_third 30).map (fun r => (r.1.m.counters, r.2)) =
      some ([30, 20], false) ∧
    ¬ (∀ (w : shared_t) (tv_usec : Int) (w1 : shared_t),
        find_frame w.m w.request.pid w.request.page ≠ -1 →
        handle_request w tv_usec = some (w1, false) →
        ∀ i : Nat, w1.m.counters.getD i 0 = w.m.counters.getD i 0) := by
  refine ⟨by decide, by decide, by decide, by decide, by decide, ?_⟩
  intro h
  have h1 := h scenA_third 30 _ (by decide)
    (handle_request_hit scenA_third 30 (by decide) (by decide)) 0
  revert h1
  decide

/-- C6, the code at the failing input: with two frames and the readings
`tv_usec = 999999` and then `tv_usec = 5` (the second of the clock has rolled
over), the second assignment stores a counter below the one recorded before it,
and the next fault evicts frame 1, the frame assigned last; with one frame the
counter of frame 0 goes from 999999 down to 5 across two successive assignments. -/
theorem set_frame_counter_wraps :
    (run (main_init 100 4 2 1 block0) [(pager1, 50, 999999), (pager1, 150, 5)]).map
        (fun w => (w.m.frames, w.m.counters)) = some ([0, 1], [999999, 5]) ∧
    (run (main_init 100 4 2 1 block0)
        [(pager1, 50, 999999), (pager1, 150, 5), (pager1, 250, 10)]).map
        (fun w => (w.m.frames, w.m.counters, w.PHYSICAL_FRAME)) =
      some ([0, 2], [999999, 10], 1) ∧
    (run (main_init 100 4 1 1 block0) [(pager1, 10, 999999)]).map
        (fun w => w.m.counters) = some [999999] ∧
    (run (main_init 100 4 1 1 block0) [(pager1, 10, 999999), (pager1, 200, 5)]).map
        (fun w => w.m.counters) = some [5] := by
  decide

/-- C8: for every address `value` and every page size `S ≥ 1`, `set_request`
records the pager's id, the address, `page = value / S` and `offset = value % S`
(C division and remainder, truncating toward zero), and
`page * S + offset = value`.  When `value` and `S` are C `int`s so are the page
and the offset: neither operation overflows. -/
theorem set_request_page_offset (p : vpager_t) (r : prequest_t) (value : Int)
    (hS : 1 ≤ p.p_size) :
    (set_request p r value).pid = p.id ∧
    (set_request p r value).address = value ∧
    (set_request p r value).page = value.tdiv p.p_size ∧
    (set_request p r value).offset = value.tmod p.p_size ∧
    (set_request p r value).page * p.p_size + (set_request p r value).offset = value ∧
    (in_int_range value → in_int_range p.p_size →
      in_int_range (set_request p r value).page ∧
      in_int_range (set_request p r value).offset) := by
  refine ⟨rfl, rfl, rfl, rfl, ?_, ?_⟩
  · show value.tdiv p.p_size * p.p_size + value.tmod p.p_size = value
    rw [mul_comm]
    exact Int.tdiv_add_tmod value p.p_size
  · intro hv hp
    show in_int_range (value.tdiv p.p_size) ∧ in_int_range (value.tmod p.p_size)
    unfold in_int_range at *
    have hpos : 0 < p.p_size := by omega
    have hbound : ∀ a : Int, 0 ≤ a →
        0 ≤ a.tdiv p.p_size ∧ a.tdiv p.p_size ≤ a ∧
        0 ≤ a.tmod p.p_size ∧ a.tmod p.p_size < p.p_size := by
      intro a ha
      rw [Int.tdiv_eq_ediv ha (by omega), Int.tmod_eq_emod ha (by omega)]
      exact ⟨Int.ediv_nonneg ha (by omega), Int.ediv_le_self _ ha,
        Int.emod_nonneg _ (by omega), Int.emod_lt_of_pos _ hpos⟩
    rcases le_or_lt 0 value with h0 | h0
    · obtain ⟨h1, h2, h3, h4⟩ := hbound value h0
      omega
    · obtain ⟨h1, h2, h3, h4⟩ := hbound (-value) (by omega)
      have e1 : value.tdiv p.p_size = -((-value).tdiv p.p_size) := by
        rw [← Int.neg_tdiv, neg_neg]
      have i1 := Int.tdiv_add_tmod value p.p_size
      have i2 := Int.tdiv_add_tmod (-value) p.p_size
      rw [e1, mul_neg] at i1
      have e2 : value.tmod p.p_size = -((-value).tmod p.p_size) := by linarith
      omega

theorem set_request_page_offset_witness :
    (set_request pager1 block0 (-150)).pid = pager1.id ∧
    (set_request pager1 block0 (-150)).address = -150 ∧
    (set_request pager1 block0 (-150)).page = (-150 : Int).tdiv pager1.p_size ∧
    (set_request pager1 block0 (-150)).offset = (-150 : Int).tmod pager1.p_size ∧
    (set_request pager1 block0 (-150)).page * pager1.p_size +
      (set_request pager1 block0 (-150)).offset = -150 ∧
    (in_int_range (-150) → in_int_range pager1.p_size →
      in_int_range (set_request pager1 block0 (-150)).page ∧
      in_int_range (set_request pager1 block0 (-150)).offset) :=
  set_request_page_offset pager1 block0 (-150) (by decide)

/-- C9: `submit_request` succeeds only if no request is held.  With the slot
empty (`request->pid = -1`) it returns `0` and the slot then holds the pager's
id, the value, `value / p_size` and `value % p_size`; with the slot occupied it
returns `-1` and the held request is unchanged in every field. -/
theorem submit_request_single_slot (p : vpager_t) (request : prequest_t) (value : Int) :
    ((submit_request p request value).1 = 0 ∨ (submit_request p request value).1 = -1) ∧
    ((submit_request p request value).1 = 0 ↔ request.pid = -1) ∧
    (request.pid = -1 →
      (submit_request p request value).1 = 0 ∧
      (submit_request p request value).2 =
        { pid := p.id, address := value, page := value.tdiv p.p_size,
          offset := value.tmod p.p_size }) ∧
    (request.pid ≠ -1 →
      (submit_request p request value).1 = -1 ∧
      (submit_request p request value).2 = request) := by
  unfold submit_request
  by_cases h : request.pid = -1
  · simp [h, set_request]
  · simp [h]

/-! ## What one handled request leaves behind -/

/-- A `set_frame` call on frame `k` becomes the most recent one on `k` and
leaves the most recent one on every other frame as it was. -/
theorem last_assign_append_write (es pre post : List effect_t) (k pid page j : Int)
    (hpre : count_assign pre = 0) (hpost : count_assign post = 0) :
    last_assign (es ++ pre ++ [effect_t.frame_write k pid page] ++ post) j =
      if k = j then some (pid, page) else last_assign es j := by
  have hnone : ∀ (l : List effect_t) (acc : Option (Int × Int)), count_assign l = 0 →
      l.foldl
        (fun acc e =>
          match e with
          | effect_t.frame_write f pid page => if f = j then some (pid, page) else acc
          | _ => acc) acc = acc := by
    intro l
    induction l with
    | nil => intro acc _; rfl
    | cons e l ih =>
      intro acc h
      cases e <;> simp_all [count_assign, List.countP_cons, is_frame_write]
  unfold last_assign
  rw [List.foldl_append, List.foldl_append, List.foldl_append, hnone pre _ hpre,
    hnone post _ hpost]
  rfl

/-- The state after a held request has been handled, on either path. -/
theorem serve_result (w : shared_t) (tv_usec : Int) (hm : 0 < w.mutex) :
    ∃ w2 k, serve w tv_usec = some w2 ∧
      k = (if find_frame w.m w.request.pid w.request.page = -1 then fault_frame w.m
           else find_frame w.m w.request.pid w.request.page) ∧
      w2.m = { w.m with
               frames := store w.m.frames k w.request.page
               counters := store w.m.counters k tv_usec
               pid := store w.m.pid k w.request.pid } ∧
      w2.request = { w.request with pid := -1 } ∧
      w2.mutex = w.mutex ∧
      w2.m_response = w.m_response + 1 ∧
      w2.PHYSICAL_FRAME = k ∧
      ∀ j : Int, last_assign w2.effects j =
        if k = j then some (w.request.pid, w.request.page) else last_assign w.effects j := by
  by_cases hmiss : find_frame w.m w.request.pid w.request.page = -1
  · refine ⟨_, _, serve_miss w tv_usec hm hmiss, rfl, ?_⟩
    rw [handle_fault_eq, if_pos hmiss]
    refine ⟨rfl, rfl, ?_, rfl, rfl, ?_⟩
    · show w.mutex - 1 + 1 = w.mutex
      omega
    · intro j
      have h := last_assign_append_write w.effects
        [effect_t.wait_mutex, effect_t.fault_started]
        [effect_t.publish_frame (fault_frame w.m), effect_t.post_response,
          effect_t.request_cleared, effect_t.post_mutex]
        (fault_frame w.m) w.request.pid w.request.page j (by decide)
        (by simp [count_assign, is_frame_write])
      simpa using h
  · obtain ⟨w1, h1, h2⟩ := serve_hit w tv_usec hm hmiss
    rw [handle_request_hit w tv_usec hm hmiss] at h1
    have hw1 := (Prod.mk.inj (Option.some.inj h1)).1
    refine ⟨w1, _, h2, rfl, ?_⟩
    rw [← hw1, if_neg hmiss]
    refine ⟨rfl, rfl, ?_, rfl, rfl, ?_⟩
    · show w.mutex - 1 + 1 = w.mutex
      omega
    · intro j
      have h := last_assign_append_write w.effects
        [effect_t.wait_mutex]
        [effect_t.publish_frame (find_frame w.m w.request.pid w.request.page),
          effect_t.post_response, effect_t.request_cleared, effect_t.post_mutex]
        (find_frame w.m w.request.pid w.request.page) w.request.pid w.request.page j
        (by decide) (by simp [count_assign, is_frame_write])
      simpa using h

/-- C10: handling one held request raises the response signal exactly once.
On the hit path `handle_request` alone posts `m_response` once and assigns one
frame, and starts no fault handler; on the miss path `handle_request` posts
nothing and assigns nothing, and the fault handler it starts posts
`m_response` once and assigns one frame.  On both paths `m_response` grows by
exactly 1 and the effects of the handling hold exactly one post and exactly one
frame assignment. -/
theorem one_response_per_request (w : shared_t) (tv_usec : Int) (hm : 0 < w.mutex) :
    ∃ w2 es, serve w tv_usec = some w2 ∧ w2.effects = w.effects ++ es ∧
      w2.m_response = w.m_response + 1 ∧
      count_response es = 1 ∧ count_assign es = 1 ∧
      (find_frame w.m w.request.pid w.request.page ≠ -1 →
        handle_request w tv_usec = some (w2, false) ∧ effect_t.fault_started ∉ es) ∧
      (find_frame w.m w.request.pid w.request.page = -1 →
        ∃ w1 es1, handle_request w tv_usec = some (w1, true) ∧
          w1.effects = w.effects ++ es1 ∧ w1.m_response = w.m_response ∧
          w1.m = w.m ∧ count_response es1 = 0 ∧ count_assign es1 = 0 ∧
          w2 = handle_fault w1 tv_usec ∧
          w2.m_response = w1.m_response + 1 ∧
          count_response (es.drop es1.length) = 1 ∧
          count_assign (es.drop es1.length) = 1) := by
  by_cases hmiss : find_frame w.m w.request.pid w.request.page = -1
  · refine ⟨_, [effect_t.wait_mutex, effect_t.fault_started,
        effect_t.frame_write (fault_frame w.m) w.request.pid w.request.page,
        effect_t.publish_frame (fault_frame w.m), effect_t.post_response,
        effect_t.request_cleared, effect_t.post_mutex],
      serve_miss w tv_usec hm hmiss, ?_, ?_, ?_, ?_, ?_, ?_⟩
    · rw [handle_fault_eq]
      simp
    · rw [handle_fault_eq]
    · simp [count_response]
    · simp [count_assign, is_frame_write]
    · intro h
      exact absurd hmiss h
    · intro _
      refine ⟨_, [effect_t.wait_mutex, effect_t.fault_started],
        handle_request_miss w tv_usec hm hmiss, ?_, rfl, rfl, ?_, ?_, rfl, ?_, ?_, ?_⟩
      · simp
      · simp [count_response]
      · simp [count_assign, is_frame_write]
      · rw [handle_fault_eq]
      · simp [count_response]
      · simp [count_assign, is_frame_write]
  · have hh := handle_request_hit w tv_usec hm hmiss
    obtain ⟨w1, h1, h2⟩ := serve_hit w tv_usec hm hmiss
    have hw1 := (Prod.mk.inj (Option.some.inj (h1.symm.trans hh))).1
    refine ⟨w1, [effect_t.wait_mutex,
        effect_t.frame_write (find_frame w.m w.request.pid w.request.page)
          w.request.pid w.request.page,
        effect_t.publish_frame (find_frame w.m w.request.pid w.request.page),
        effect_t.post_response, effect_t.request_cleared, effect_t.post_mutex],
      h2, ?_, ?_, ?_, ?_, ?_, ?_⟩
    · rw [hw1]
      simp
    · rw [hw1]
    · simp [count_response]
    · simp [count_assign, is_frame_write]
    · intro _
      refine ⟨h1, ?_⟩
      simp
    · intro h
      exact absurd h hmiss

theorem one_response_per_request_witness :
    (0 < scenB_first.mutex ∧
      find_frame scenB_first.m scenB_first.request.pid scenB_first.request.page = -1) ∧
    ∃ w2 es, serve scenB_first 5 = some w2 ∧ w2.effects = scenB_first.effects ++ es ∧
      w2.m_response = scenB_first.m_response + 1 ∧
      count_response es = 1 ∧ count_assign es = 1 ∧
      (find_frame scenB_first.m scenB_first.request.pid scenB_first.request.page ≠ -1 →
        handle_request scenB_first 5 = some (w2, false) ∧ effect_t.fault_started ∉ es) ∧
      (find_frame scenB_first.m scenB_first.request.pid scenB_first.request.page = -1 →
        ∃ w1 es1, handle_request scenB_first 5 = some (w1, true) ∧
          w1.effects = scenB_first.effects ++ es1 ∧
          w1.m_response = scenB_first.m_response ∧
          w1.m = scenB_first.m ∧ count_response es1 = 0 ∧ count_assign es1 = 0 ∧
          w2 = handle_fault w1 5 ∧
          w2.m_response = w1.m_response + 1 ∧
          count_response (es.drop es1.length) = 1 ∧
          count_assign (es.drop es1.length) = 1) :=
  ⟨by decide, one_response_per_request scenB_first 5 (by decide)⟩

/-! ## Runs from the initial state -/

theorem pager_submit_empty (w : shared_t) (p : vpager_t) (value : Int)
    (hm : 0 < w.mutex) (hreq : w.request.pid = -1) :
    pager_submit w p value =
      some { w with request := set_request p w.request value, mutex := w.mutex - 1 + 1 } := by
  unfold pager_submit
  rw [sem_wait_pos w.mutex hm]
  simp [submit_request, hreq, sem_post]

theorem between_rounds_init (S P F n : Int) (r0 : prequest_t) :
    between_rounds (main_init S P F n r0) := by
  refine ⟨Nat.one_pos, rfl, ?_, ?_⟩
  · intro j hj
    simp only [main_init, init_mmanager, List.length_replicate] at hj ⊢
    omega
  · intro j hj
    left
    refine ⟨rfl, ?_⟩
    simp only [main_init, init_mmanager] at hj ⊢
    have hlt : j < F.toNat := by omega
    simp [List.getD_eq_getElem?_getD, List.getElem?_replicate, hlt]

theorem round_between_rounds (w : shared_t) (p : vpager_t) (value tv_usec : Int)
    (h : between_rounds w) :
    ∃ w3, round w p value tv_usec = some w3 ∧ between_rounds w3 ∧
      w3.m.f_num = w.m.f_num := by
  obtain ⟨hm, hreq, hlen, hcells⟩ := h
  have hsub := pager_submit_empty w p value hm hreq
  obtain ⟨w2, k, hs, _, hm2, hr2, hmu2, hres2, _, hla⟩ :=
    serve_result { w with request := set_request p w.request value, mutex := w.mutex - 1 + 1 }
      tv_usec (by show 0 < w.mutex - 1 + 1; omega)
  have hround : round w p value tv_usec = some { w2 with m_response := w2.m_response - 1 } := by
    unfold round
    rw [hsub]
    simp only [hs]
    rw [sem_wait_pos w2.m_response (by omega)]
  refine ⟨_, hround, ⟨?_, ?_, ?_, ?_⟩, ?_⟩
  · show 0 < w2.mutex
    rw [hmu2]
    show 0 < w.mutex - 1 + 1
    omega
  · show w2.request.pid = -1
    rw [hr2]
  · intro j hj
    show j < w2.m.frames.length ∧ j < w2.m.pid.length
    rw [hm2] at hj ⊢
    simp only [length_store]
    exact hlen j hj
  · intro j hj
    show (last_assign w2.effects j = none ∧ w2.m.pid.getD j 0 = -1) ∨
      last_assign w2.effects j = some (w2.m.pid.getD j 0, w2.m.frames.getD j 0)
    rw [hm2] at hj ⊢
    rw [hla j]
    simp only []
    have hj' : (j : Int) < w.m.f_num := hj
    by_cases hkj : k = (j : Int)
    · right
      rw [if_pos hkj, hkj, getD_store_same _ j _ (hlen j hj').1,
        getD_store_same _ j _ (hlen j hj').2]
    · have hjk : (j : Int) ≠ k := fun e => hkj e.symm
      rw [if_neg hkj, getD_store_other _ _ _ j hjk, getD_store_other _ _ _ j hjk]
      exact hcells j hj'
  · show w2.m.f_num = w.m.f_num
    rw [hm2]

theorem run_between_rounds (reqs : List (vpager_t × Int × Int)) :
    ∀ w : shared_t, between_rounds w →
      ∃ w1, run w reqs = some w1 ∧ between_rounds w1 ∧ w1.m.f_num = w.m.f_num := by
  induction reqs with
  | nil =>
    intro w h
    exact ⟨w, rfl, h, rfl⟩
  | cons r rest ih =>
    intro w h
    obtain ⟨p, value, tv_usec⟩ := r
    obtain ⟨w1, h1, h2, h3⟩ := round_between_rounds w p value tv_usec h
    obtain ⟨w2, h4, h5, h6⟩ := ih w1 h2
    refine ⟨w2, ?_, h5, by rw [h6, h3]⟩
    simp only [run, h1]
    exact h4

/-- C7: every sequence of requests is handled to the end from the state
`init_mmanager` builds, and in the state reached, for every pager id
`pid ≥ 1` and every page, when `find_frame` returns an index other than `-1`
the most recent `set_frame` call on that frame was made with exactly that pid
and page.  The requests may come from any pagers, with any trace values and
any clock readings. -/
theorem find_frame_no_stale_hit (S P F n : Int) (r0 : prequest_t)
    (reqs : List (vpager_t × Int × Int)) :
    ∃ w, run (main_init S P F n r0) reqs = some w ∧
      ∀ pid page : Int, 1 ≤ pid → find_frame w.m pid page ≠ -1 →
        last_assign w.effects (find_frame w.m pid page) = some (pid, page) := by
  obtain ⟨w, h1, h2, _⟩ := run_between_rounds reqs _ (between_rounds_init S P F n r0)
  refine ⟨w, h1, ?_⟩
  intro pid page hpid hfound
  obtain ⟨_, _, _, hcells⟩ := h2
  rcases find_frame_cases w.m pid page with ⟨e, _⟩ | ⟨k, e, hk, hholds, _⟩
  · exact absurd e hfound
  · rw [e]
    obtain ⟨hf, hp⟩ := hholds
    rcases hcells k hk with ⟨_, hnone⟩ | hsome
    · rw [hp] at hnone
      omega
    · rw [hsome, hf, hp]

/-! ## One handled request, effect by effect -/

/-- The effects of handling one held request: `handle_request` alone on a
hit, `handle_request` and then the fault handler on a miss. -/
theorem serve_effects (w : shared_t) (tv_usec : Int) (hm : 0 < w.mutex) :
    ∃ w2 k pre, serve w tv_usec = some w2 ∧
      k = (if find_frame w.m w.request.pid w.request.page = -1 then fault_frame w.m
           else find_frame w.m w.request.pid w.request.page) ∧
      pre = (if find_frame w.m w.request.pid w.request.page = -1
             then [effect_t.wait_mutex, effect_t.fault_started] else [effect_t.wait_mutex]) ∧
      w2.effects = w.effects ++ (pre ++
        [effect_t.frame_write k w.request.pid w.request.page, effect_t.publish_frame k,
         effect_t.post_response, effect_t.request_cleared, effect_t.post_mutex]) := by
  by_cases hmiss : find_frame w.m w.request.pid w.request.page = -1
  · refine ⟨_, _, _, serve_miss w tv_usec hm hmiss, rfl, rfl, ?_⟩
    rw [handle_fault_eq, if_pos hmiss, if_pos hmiss]
    simp
  · obtain ⟨w1, h1, h2⟩ := serve_hit w tv_usec hm hmiss
    have hw1 := (Prod.mk.inj (Option.some.inj
      (h1.symm.trans (handle_request_hit w tv_usec hm hmiss)))).1
    refine ⟨w1, _, _, h2, rfl, rfl, ?_⟩
    rw [hw1, if_neg hmiss, if_neg hmiss]
    simp

/-- C11, as amended: in the effects of handling one request, on the hit path
and on the miss path alike, the frame-table write happens strictly before the
post of `m_response`, and the clearing of the mailbox (`clear_request`) happens
after that post and strictly before the post of `mutex`; each of the four
happens exactly once. -/
theorem write_response_clear_release_order (w : shared_t) (tv_usec : Int)
    (hm : 0 < w.mutex) :
    ∃ w2 es k, serve w tv_usec = some w2 ∧ w2.effects = w.effects ++ es ∧
      count_assign es = 1 ∧ count_response es = 1 ∧
      count_cleared es = 1 ∧ count_release es = 1 ∧
      before (effect_t.frame_write k w.request.pid w.request.page)
        effect_t.post_response es ∧
      before effect_t.post_response effect_t.request_cleared es ∧
      before effect_t.request_cleared effect_t.post_mutex es := by
  obtain ⟨w2, k, pre, h1, _, h3, h4⟩ := serve_effects w tv_usec hm
  refine ⟨w2, _, k, h1, h4, ?_⟩
  by_cases hmiss : find_frame w.m w.request.pid w.request.page = -1
  · rw [if_pos hmiss] at h3
    subst h3
    simp [count_assign, count_response, count_cleared, count_release, is_frame_write,
      before, List.indexOf_cons]
  · rw [if_neg hmiss] at h3
    subst h3
    simp [count_assign, count_response, count_cleared, count_release, is_frame_write,
      before, List.indexOf_cons]

theorem write_response_clear_release_order_witness :
    0 < scenB_first.mutex ∧
    ∃ w2 es k, serve scenB_first 5 = some w2 ∧ w2.effects = scenB_first.effects ++ es ∧
      count_assign es = 1 ∧ count_response es = 1 ∧
      count_cleared es = 1 ∧ count_release es = 1 ∧
      before (effect_t.frame_write k scenB_first.request.pid scenB_first.request.page)
        effect_t.post_response es ∧
      before effect_t.post_response effect_t.request_cleared es ∧
      before effect_t.request_cleared effect_t.post_mutex es :=
  ⟨by decide, write_response_clear_release_order scenB_first 5 (by decide)⟩

/-- Counterexample to C11 as stated.  Scenario A, third access (a hit) and
Scenario B, first access (a miss): in both, `post_response` is the effect right
before `request_cleared`, so the mailbox is not cleared before the response
signal is raised. -/
theorem clear_before_response_counterexample :
    (serve scenA_third 30).map (fun w => w.effects.drop scenA_third.effects.length) =
      some [effect_t.wait_mutex, effect_t.frame_write 0 1 0, effect_t.publish_frame 0,
        effect_t.post_response, effect_t.request_cleared, effect_t.post_mutex] ∧
    ¬ before effect_t.request_cleared effect_t.post_response
      [effect_t.wait_mutex, effect_t.frame_write 0 1 0, effect_t.publish_frame 0,
        effect_t.post_response, effect_t.request_cleared, effect_t.post_mutex] ∧
    (serve scenB_first 5).map (fun w => w.effects.drop scenB_first.effects.length) =
      some [effect_t.wait_mutex, effect_t.fault_started, effect_t.frame_write 0 1 0,
        effect_t.publish_frame 0, effect_t.post_response, effect_t.request_cleared,
        effect_t.post_mutex] ∧
    ¬ before effect_t.request_cleared effect_t.post_response
      [effect_t.wait_mutex, effect_t.fault_started, effect_t.frame_write 0 1 0,
        effect_t.publish_frame 0, effect_t.post_response, effect_t.request_cleared,
        effect_t.post_mutex] := by
  decide

/-- C12: for a well-formed table with `F ≥ 1` frames, the frame index the
fault handler selects (`find_free`, or `find_lru` when `find_free` returns
`-1`) lies in `[0, F)`, so the three writes of `set_frame` are within the
arrays `frames`, `counters` and `pid`, and the table stays well formed. -/
theorem fault_frame_in_table (w : shared_t) (tv_usec : Int)
    (hwf : w.m.wf) (hF : 1 ≤ w.m.f_num)
    (k : Int) (hk : k = if find_free w.m = -1 then find_lru w.m else find_free w.m) :
    0 ≤ k ∧ k < w.m.f_num ∧
    k.toNat < w.m.frames.length ∧ k.toNat < w.m.counters.length ∧
    k.toNat < w.m.pid.length ∧
    (handle_fault w tv_usec).PHYSICAL_FRAME = k ∧
    (handle_fault w tv_usec).m.frames = w.m.frames.set k.toNat w.request.page ∧
    (handle_fault w tv_usec).m.counters = w.m.counters.set k.toNat tv_usec ∧
    (handle_fault w tv_usec).m.pid = w.m.pid.set k.toNat w.request.pid ∧
    (handle_fault w tv_usec).m.wf := by
  have hkf : k = fault_frame w.m := hk
  obtain ⟨kn, hk1, hk2⟩ := fault_frame_bounds w.m hF
  obtain ⟨hl1, hl2, hl3⟩ := hwf
  have hk0 : 0 ≤ k := by rw [hkf, hk1]; omega
  rw [handle_fault_eq]
  simp only []
  rw [← hkf]
  refine ⟨hk0, by omega, by omega, by omega, by omega, rfl, ?_, ?_, ?_, ?_⟩
  · simp [store, hk0]
  · simp [store, hk0]
  · simp [store, hk0]
  · refine ⟨?_, ?_, ?_⟩
    · show ((store w.m.frames k w.request.page).length : Int) = w.m.f_num
      rw [length_store]; exact hl1
    · show ((store w.m.counters k tv_usec).length : Int) = w.m.f_num
      rw [length_store]; exact hl2
    · show ((store w.m.pid k w.request.pid).length : Int) = w.m.f_num
      rw [length_store]; exact hl3

theorem fault_frame_in_table_witness :
    (find_free scenB_second.m = -1 ∧ find_lru scenB_second.m = 0) ∧
    ((0 : Int) ≤ 0 ∧ 0 < scenB_second.m.f_num ∧
    (0 : Int).toNat < scenB_second.m.frames.length ∧
    (0 : Int).toNat < scenB_second.m.counters.length ∧
    (0 : Int).toNat < scenB_second.m.pid.length ∧
    (handle_fault scenB_second 7).PHYSICAL_FRAME = 0 ∧
    (handle_fault scenB_second 7).m.frames =
      scenB_second.m.frames.set (0 : Int).toNat scenB_second.request.page ∧
    (handle_fault scenB_second 7).m.counters =
      scenB_second.m.counters.set (0 : Int).toNat 7 ∧
    (handle_fault scenB_second 7).m.pid =
      scenB_second.m.pid.set (0 : Int).toNat scenB_second.request.pid ∧
    (handle_fault scenB_second 7).m.wf) :=
  ⟨by decide, fault_frame_in_table scenB_second 7 (by decide) (by decide) 0 (by decide)⟩

/-! ## The table after one handled request -/

/-- The scan `find_frame` returns `k` when cell `k` is the first that holds the
page for the pid. -/
theorem find_frame_eq_first (m : mmanager_t) (pid page : Int) (k : Nat)
    (hk : (k : Int) < m.f_num) (hholds : holds m pid page k)
    (hfirst : ∀ j, j < k → ¬ holds m pid page j) :
    find_frame m pid page = (k : Int) := by
  rcases find_frame_cases m pid page with ⟨_, h2⟩ | ⟨k1, h1, _, h3, h4⟩
  · exact absurd hholds (h2 k hk)
  · rw [h1]
    have h5 : ¬ k1 < k := fun h => hfirst k1 h h3
    have h6 : ¬ k < k1 := fun h => h4 k h hholds
    have h7 : k1 = k := by omega
    rw [h7]

/-- Writing into a cell the value it already holds changes nothing. -/
theorem store_same_value (a : List Int) (k : Nat) (v : Int)
    (h : k < a.length → a.getD k 0 = v) : store a (k : Int) v = a := by
  have hset : ∀ (l : List Int) (n : Nat), (n < l.length → l.getD n 0 = v) → l.set n v = l := by
    intro l
    induction l with
    | nil => intro n _; rfl
    | cons x xs ih =>
      intro n hn
      cases n with
      | zero =>
        have hx : x = v := by simpa using hn (by simp)
        simp [hx]
      | succ n =>
        have hxs : xs.set n v = xs := by
          apply ih n
          intro hlt
          simpa using hn (by simpa using hlt)
        simp [hxs]
  unfold store
  simp only [Int.natCast_nonneg, if_true, Int.toNat_ofNat]
  exact hset a k h

/-- C15: after a held request for `(pid, page)` has been handled, by the hit
path or by the miss path, the index published in `PHYSICAL_FRAME` equals
`find_frame(pid, page)` evaluated on the resulting table, it is an index of the
table, and that frame holds exactly `(pid, page)`.  The table is well formed
with at least one frame and `mutex` is free, so that the handler runs. -/
theorem published_frame_is_authoritative (w : shared_t) (tv_usec : Int)
    (hwf : w.m.wf) (hF : 1 ≤ w.m.f_num) (hm : 0 < w.mutex) :
    ∃ w2, serve w tv_usec = some w2 ∧
      w2.PHYSICAL_FRAME = find_frame w2.m w.request.pid w.request.page ∧
      0 ≤ w2.PHYSICAL_FRAME ∧ w2.PHYSICAL_FRAME < w2.m.f_num ∧
      w2.m.frames.getD w2.PHYSICAL_FRAME.toNat 0 = w.request.page ∧
      w2.m.pid.getD w2.PHYSICAL_FRAME.toNat 0 = w.request.pid := by
  obtain ⟨w2, k, hs, hk, hm2, _, _, _, hpf, _⟩ := serve_result w tv_usec hm
  obtain ⟨hl1, _, hl3⟩ := hwf
  have hkn : ∃ kn : Nat, k = (kn : Int) ∧ (kn : Int) < w.m.f_num ∧
      ∀ j, j < kn → ¬ holds w.m w.request.pid w.request.page j := by
    rcases find_frame_cases w.m w.request.pid w.request.page with ⟨h1, h2⟩ | ⟨k1, h1, h2, _, h4⟩
    · rw [if_pos h1] at hk
      obtain ⟨kn, e1, e2⟩ := fault_frame_bounds w.m hF
      exact ⟨kn, by rw [hk, e1], e2, fun j hj => h2 j (by omega)⟩
    · have hne : find_frame w.m w.request.pid w.request.page ≠ -1 := by rw [h1]; omega
      rw [if_neg hne, h1] at hk
      exact ⟨k1, hk, h2, h4⟩
  obtain ⟨kn, e1, e2, e3⟩ := hkn
  have hf : w2.m.frames.getD kn 0 = w.request.page := by
    rw [hm2, e1]
    exact getD_store_same _ kn _ (by omega)
  have hp : w2.m.pid.getD kn 0 = w.request.pid := by
    rw [hm2, e1]
    exact getD_store_same _ kn _ (by omega)
  have hfn : w2.m.f_num = w.m.f_num := by rw [hm2]
  have hfind : find_frame w2.m w.request.pid w.request.page = (kn : Int) := by
    apply find_frame_eq_first
    · rw [hfn]; exact e2
    · exact ⟨hf, hp⟩
    · intro j hj hh
      apply e3 j hj
      have hjk : (j : Int) ≠ k := by omega
      obtain ⟨hh1, hh2⟩ := hh
      rw [hm2] at hh1 hh2
      exact ⟨by rw [← hh1]; exact (getD_store_other _ _ _ j hjk).symm,
        by rw [← hh2]; exact (getD_store_other _ _ _ j hjk).symm⟩
  refine ⟨w2, hs, ?_, ?_, ?_, ?_, ?_⟩
  · rw [hpf, hfind, e1]
  · rw [hpf, e1]; omega
  · rw [hpf, e1, hfn]; exact e2
  · rw [hpf, e1]; simpa using hf
  · rw [hpf, e1]; simpa using hp

theorem published_frame_is_authoritative_witness :
    (find_frame scenB_second.m scenB_second.request.pid scenB_second.request.page = -1 ∧
      scenB_second.request.page = 2) ∧
    ∃ w2, serve scenB_second 7 = some w2 ∧
      w2.PHYSICAL_FRAME =
        find_frame w2.m scenB_second.request.pid scenB_second.request.page ∧
      0 ≤ w2.PHYSICAL_FRAME ∧ w2.PHYSICAL_FRAME < w2.m.f_num ∧
      w2.m.frames.getD w2.PHYSICAL_FRAME.toNat 0 = scenB_second.request.page ∧
      w2.m.pid.getD w2.PHYSICAL_FRAME.toNat 0 = scenB_second.request.pid :=
  ⟨by decide,
   published_frame_is_authoritative scenB_second 7 (by decide) (by decide) (by decide)⟩

/-- C17: the permit `handle_request` takes is given back exactly once per
request, and the mailbox is empty when it is given back.  On a hit
`handle_request` itself clears the request and posts `mutex`; on a miss
`handle_request` returns with the permit still held and the request still in
the slot, having cleared and posted nothing, and `handle_fault` clears the
request and posts `mutex`.  On both paths the last two effects are the clearing
and the post, and the count of `mutex` after the request is handled equals its
value before `handle_request` was entered. -/
theorem mutex_released_once (w : shared_t) (tv_usec : Int) (hm : 0 < w.mutex) :
    ∃ w2 es done, serve w tv_usec = some w2 ∧ w2.effects = w.effects ++ es ∧
      w2.mutex = w.mutex ∧ w2.request.pid = -1 ∧
      es = done ++ [effect_t.request_cleared, effect_t.post_mutex] ∧
      count_release done = 0 ∧ count_cleared done = 0 ∧ count_release es = 1 ∧
      (find_frame w.m w.request.pid w.request.page ≠ -1 →
        handle_request w tv_usec = some (w2, false)) ∧
      (find_frame w.m w.request.pid w.request.page = -1 →
        ∃ w1, handle_request w tv_usec = some (w1, true) ∧
          w1.mutex + 1 = w.mutex ∧ w1.request = w.request ∧
          w1.effects = w.effects ++ [effect_t.wait_mutex, effect_t.fault_started] ∧
          w2 = handle_fault w1 tv_usec ∧ w2.mutex = w1.mutex + 1) := by
  by_cases hmiss : find_frame w.m w.request.pid w.request.page = -1
  · refine ⟨_, _, [effect_t.wait_mutex, effect_t.fault_started,
        effect_t.frame_write (fault_frame w.m) w.request.pid w.request.page,
        effect_t.publish_frame (fault_frame w.m), effect_t.post_response],
      serve_miss w tv_usec hm hmiss, ?_, ?_, ?_, rfl, ?_, ?_, ?_, ?_, ?_⟩
    · rw [handle_fault_eq]
      simp
    · rw [handle_fault_eq]
      show w.mutex - 1 + 1 = w.mutex
      omega
    · rw [handle_fault_eq]
    · simp [count_release]
    · simp [count_cleared]
    · simp [count_release]
    · intro h
      exact absurd hmiss h
    · intro _
      refine ⟨_, handle_request_miss w tv_usec hm hmiss, ?_, rfl, ?_, rfl, ?_⟩
      · show w.mutex - 1 + 1 = w.mutex
        omega
      · simp
      · rw [handle_fault_eq]
  · have hh := handle_request_hit w tv_usec hm hmiss
    obtain ⟨w1, h1, h2⟩ := serve_hit w tv_usec hm hmiss
    have hw1 := (Prod.mk.inj (Option.some.inj (h1.symm.trans hh))).1
    refine ⟨w1, _, [effect_t.wait_mutex,
        effect_t.frame_write (find_frame w.m w.request.pid w.request.page)
          w.request.pid w.request.page,
        effect_t.publish_frame (find_frame w.m w.request.pid w.request.page),
        effect_t.post_response],
      h2, ?_, ?_, ?_, rfl, ?_, ?_, ?_, ?_, ?_⟩
    · rw [hw1]
      simp
    · rw [hw1]
      show w.mutex - 1 + 1 = w.mutex
      omega
    · rw [hw1]
    · simp [count_release]
    · simp [count_cleared]
    · simp [count_release]
    · intro _
      exact h1
    · intro h
      exact absurd h hmiss

theorem mutex_released_once_witness :
    (0 < scenB_second.mutex ∧
      find_frame scenB_second.m scenB_second.request.pid scenB_second.request.page = -1) ∧
    ∃ w2 es done, serve scenB_second 7 = some w2 ∧
      w2.effects = scenB_second.effects ++ es ∧
      w2.mutex = scenB_second.mutex ∧ w2.request.pid = -1 ∧
      es = done ++ [effect_t.request_cleared, effect_t.post_mutex] ∧
      count_release done = 0 ∧ count_cleared done = 0 ∧ count_release es = 1 ∧
      (find_frame scenB_second.m scenB_second.request.pid scenB_second.request.page ≠ -1 →
        handle_request scenB_second 7 = some (w2, false)) ∧
      (find_frame scenB_second.m scenB_second.request.pid scenB_second.request.page = -1 →
        ∃ w1, handle_request scenB_second 7 = some (w1, true) ∧
          w1.mutex + 1 = scenB_second.mutex ∧ w1.request = scenB_second.request ∧
          w1.effects =
            scenB_second.effects ++ [effect_t.wait_mutex, effect_t.fault_started] ∧
          w2 = handle_fault w1 7 ∧ w2.mutex = w1.mutex + 1) :=
  ⟨by decide, mutex_released_once scenB_second 7 (by decide)⟩

/-- C18: on a hit the assignment is redundant: after `handle_request` the list
of page numbers and the list of owner pids of the table are the same as before
the call, so no page is moved, evicted or re-owned by a hit. -/
theorem hit_keeps_pages_and_owners (w : shared_t) (tv_usec : Int) (hm : 0 < w.mutex)
    (hhit : find_frame w.m w.request.pid w.request.page ≠ -1) :
    ∃ w1, handle_request w tv_usec = some (w1, false) ∧
      w1.m.frames = w.m.frames ∧ w1.m.pid = w.m.pid ∧
      ∀ i : Nat, w1.m.frames.getD i 0 = w.m.frames.getD i 0 ∧
        w1.m.pid.getD i 0 = w.m.pid.getD i 0 := by
  rcases find_frame_cases w.m w.request.pid w.request.page with ⟨h1, _⟩ | ⟨k, h1, _, h3, _⟩
  · exact absurd h1 hhit
  · have hf : store w.m.frames (find_frame w.m w.request.pid w.request.page) w.request.page
        = w.m.frames := by
      rw [h1]
      exact store_same_value _ k _ (fun _ => h3.1)
    have hp : store w.m.pid (find_frame w.m w.request.pid w.request.page) w.request.pid
        = w.m.pid := by
      rw [h1]
      exact store_same_value _ k _ (fun _ => h3.2)
    refine ⟨_, handle_request_hit w tv_usec hm hhit, hf, hp, ?_⟩
    intro i
    simp only []
    rw [hf, hp]
    exact ⟨rfl, rfl⟩

theorem hit_keeps_pages_and_owners_witness :
    (0 < scenA_third.mutex ∧
      find_frame scenA_third.m scenA_third.request.pid scenA_third.request.page = 0) ∧
    ∃ w1, handle_request scenA_third 30 = some (w1, false) ∧
      w1.m.frames = scenA_third.m.frames ∧ w1.m.pid = scenA_third.m.pid ∧
      ∀ i : Nat, w1.m.frames.getD i 0 = scenA_third.m.frames.getD i 0 ∧
        w1.m.pid.getD i 0 = scenA_third.m.pid.getD i 0 :=
  ⟨by decide, hit_keeps_pages_and_owners scenA_third 30 (by decide) (by decide)⟩

/-! ## Termination test -/

theorem pagers_finished_loop_spec (m : mmanager_t) : ∀ n i : Nat,
    (pagers_finished_loop m n i = 0 ∧ ∀ j, i ≤ j → j < i + n → pager_active m j ≠ 0) ∨
    (pagers_finished_loop m n i = -1 ∧ ∃ j, i ≤ j ∧ j < i + n ∧ pager_active m j = 0) := by
  intro n
  induction n with
  | zero =>
    intro i
    left
    refine ⟨rfl, ?_⟩
    intro j h1 h2
    omega
  | succ n ih =>
    intro i
    by_cases hc : pager_active m i = 0
    · right
      refine ⟨?_, i, le_refl i, by omega, hc⟩
      simp only [pagers_finished_loop, if_pos hc]
    · have hstep : pagers_finished_loop m (n + 1) i = pagers_finished_loop m n (i + 1) := by
        simp only [pagers_finished_loop, if_neg hc]
      rw [hstep]
      rcases ih (i + 1) with ⟨h1, h2⟩ | ⟨h1, j, h2, h3, h4⟩
      · left
        refine ⟨h1, ?_⟩
        intro j hj1 hj2
        by_cases hji : j = i
        · subst hji; exact hc
        · exact h2 j (by omega) (by omega)
      · right
        exact ⟨h1, j, by omega, by omega, h4⟩

/-- The result of `pagers_finished` in terms of the list of pagers. -/
theorem pagers_finished_cases (m : mmanager_t)
    (hlen : m.pagers.length = m.pagers_num.toNat) :
    (pagers_finished m = 0 ∧ ∀ p ∈ m.pagers, p.active ≠ 0) ∨
    (pagers_finished m = -1 ∧ ∃ p ∈ m.pagers, p.active = 0) := by
  have hact : ∀ j (h : j < m.pagers.length), pager_active m j = (m.pagers.get ⟨j, h⟩).active := by
    intro j h
    unfold pager_active
    rw [List.getElem?_eq_getElem h]
    rfl
  unfold pagers_finished
  rcases pagers_finished_loop_spec m m.pagers_num.toNat 0 with ⟨h1, h2⟩ | ⟨h1, j, _, h3, h4⟩
  · left
    refine ⟨h1, ?_⟩
    intro p hp
    obtain ⟨⟨j, hj⟩, hget⟩ := List.get_of_mem hp
    have := h2 j (Nat.zero_le j) (by omega)
    rw [hact j hj, hget] at this
    exact this
  · right
    refine ⟨h1, m.pagers.get ⟨j, by omega⟩, List.get_mem _ _ _, ?_⟩
    rw [← hact j (by omega)]
    exact h4

/-- The test `pagers_finished` reads the pagers only. -/
theorem pagers_finished_congr (m1 m2 : mmanager_t) (hp : m1.pagers = m2.pagers)
    (hn : m1.pagers_num = m2.pagers_num) : pagers_finished m1 = pagers_finished m2 := by
  have hloop : ∀ n i, pagers_finished_loop m1 n i = pagers_finished_loop m2 n i := by
    intro n
    induction n with
    | zero => intro i; rfl
    | succ n ih =>
      intro i
      simp only [pagers_finished_loop, pager_active, hp, ih]
  unfold pagers_finished
  rw [hn, hloop]

/-- The function `handle_request` leaves the pagers as they are. -/
theorem handle_request_pagers (w : shared_t) (tv_usec : Int) (hm : 0 < w.mutex) :
    ∃ r, handle_request w tv_usec = some r ∧ r.1.m.pagers = w.m.pagers ∧
      r.1.m.pagers_num = w.m.pagers_num := by
  by_cases hmiss : find_frame w.m w.request.pid w.request.page = -1
  · exact ⟨_, handle_request_miss w tv_usec hm hmiss, rfl, rfl⟩
  · exact ⟨_, handle_request_hit w tv_usec hm hmiss, rfl, rfl⟩

/-- C16: the termination test of the manager is exact.  `pagers_finished`
returns `0` or `-1`; it returns `0` if and only if the `active` flag of every
pager is non-zero (finished), and `-1` if and only if at least one pager has
`active = 0` (running).  An iteration of the loop of `manage` ends, and it
leaves the loop exactly when every pager is finished.  The list of pagers has
`pagers_num` entries and `mutex` is free. -/
theorem pagers_finished_exact (w : shared_t) (tv_usec : Int) (hm : 0 < w.mutex)
    (hlen : w.m.pagers.length = w.m.pagers_num.toNat) :
    (pagers_finished w.m = 0 ∨ pagers_finished w.m = -1) ∧
    (pagers_finished w.m = 0 ↔ ∀ p ∈ w.m.pagers, p.active ≠ 0) ∧
    (pagers_finished w.m = -1 ↔ ∃ p ∈ w.m.pagers, p.active = 0) ∧
    ∃ w2 leave, manage_iteration w tv_usec = some (w2, leave) ∧
      w2.m.pagers = w.m.pagers ∧
      (leave = true ↔ ∀ p ∈ w.m.pagers, p.active ≠ 0) := by
  have hcases := pagers_finished_cases w.m hlen
  have hiff0 : pagers_finished w.m = 0 ↔ ∀ p ∈ w.m.pagers, p.active ≠ 0 := by
    rcases hcases with ⟨h1, h2⟩ | ⟨h1, p, hp, hp0⟩
    · exact ⟨fun _ => h2, fun _ => h1⟩
    · constructor
      · intro h; rw [h1] at h; omega
      · intro h; exact absurd hp0 (h p hp)
  have hiff1 : pagers_finished w.m = -1 ↔ ∃ p ∈ w.m.pagers, p.active = 0 := by
    rcases hcases with ⟨h1, h2⟩ | ⟨h1, p, hp, hp0⟩
    · constructor
      · intro h; rw [h1] at h; omega
      · rintro ⟨p, hp, hp0⟩; exact absurd hp0 (h2 p hp)
    · exact ⟨fun _ => ⟨p, hp, hp0⟩, fun _ => h1⟩
  have h01 : pagers_finished w.m = 0 ∨ pagers_finished w.m = -1 := by
    rcases hcases with ⟨h1, _⟩ | ⟨h1, _⟩
    · exact Or.inl h1
    · exact Or.inr h1
  refine ⟨h01, hiff0, hiff1, ?_⟩
  have hleave : ∀ m2 : mmanager_t, m2.pagers = w.m.pagers → m2.pagers_num = w.m.pagers_num →
      (decide (pagers_finished m2 ≠ -1) = true ↔ ∀ p ∈ w.m.pagers, p.active ≠ 0) := by
    intro m2 e1 e2
    rw [pagers_finished_congr m2 w.m e1 e2, decide_eq_true_iff, ← hiff0]
    rcases h01 with h | h <;> rw [h] <;> decide
  unfold manage_iteration
  rw [sem_wait_pos w.mutex hm]
  by_cases hreq : w.request.pid = -1
  · simp only [hreq, ne_eq, not_true_eq_false, if_false]
    exact ⟨_, _, rfl, rfl, hleave _ rfl rfl⟩
  · obtain ⟨r, hr1, hr2, hr3⟩ := handle_request_pagers
      { w with mutex := sem_post (w.mutex - 1) } tv_usec (by simp [sem_post])
    simp only [ne_eq, hreq, not_false_eq_true, if_true, hr1, Option.map_some']
    exact ⟨_, _, rfl, hr2, hleave _ hr2 hr3⟩

theorem pagers_finished_exact_witness :
    (0 < (shared3_pagers block0).mutex ∧
      (shared3_pagers block0).m.pagers.length = (shared3_pagers block0).m.pagers_num.toNat ∧
      pagers_finished (shared3_pagers block0).m = -1) ∧
    ((pagers_finished (shared3_pagers block0).m = 0 ∨
        pagers_finished (shared3_pagers block0).m = -1) ∧
    (pagers_finished (shared3_pagers block0).m = 0 ↔
        ∀ p ∈ (shared3_pagers block0).m.pagers, p.active ≠ 0) ∧
    (pagers_finished (shared3_pagers block0).m = -1 ↔
        ∃ p ∈ (shared3_pagers block0).m.pagers, p.active = 0) ∧
    ∃ w2 leave, manage_iteration (shared3_pagers block0) 5 = some (w2, leave) ∧
      w2.m.pagers = (shared3_pagers block0).m.pagers ∧
      (leave = true ↔ ∀ p ∈ (shared3_pagers block0).m.pagers, p.active ≠ 0)) :=
  ⟨by decide, pagers_finished_exact (shared3_pagers block0) 5 (by decide) (by decide)⟩

/-! ## Whole runs -/

/-- The state after one round, from a state in which `mutex` is free and the
slot is empty. -/
theorem round_result (w : shared_t) (p : vpager_t) (value tv_usec : Int)
    (hm : 0 < w.mutex) (hreq : w.request.pid = -1) :
    ∃ w3 k, round w p value tv_usec = some w3 ∧
      k = (if find_frame w.m p.id (value.tdiv p.p_size) = -1 then fault_frame w.m
           else find_frame w.m p.id (value.tdiv p.p_size)) ∧
      w3.m = { w.m with
               frames := store w.m.frames k (value.tdiv p.p_size)
               counters := store w.m.counters k tv_usec
               pid := store w.m.pid k p.id } ∧
      w3.request.pid = -1 ∧ w3.mutex = w.mutex ∧ w3.m_response = w.m_response ∧
      w3.PHYSICAL_FRAME = k ∧
      faulted w p value tv_usec = decide (find_frame w.m p.id (value.tdiv p.p_size) = -1) := by
  have hsub := pager_submit_empty w p value hm hreq
  have hm1 : 0 < ({ w with request := set_request p w.request value,
                           mutex := w.mutex - 1 + 1 } : shared_t).mutex := by
    show 0 < w.mutex - 1 + 1
    omega
  obtain ⟨w2, k, hs, hk, hm2, hr2, hmu2, hres2, hpf, _⟩ := serve_result _ tv_usec hm1
  have hround : round w p value tv_usec = some { w2 with m_response := w2.m_response - 1 } := by
    unfold round
    rw [hsub]
    simp only [hs]
    rw [sem_wait_pos w2.m_response (by omega)]
  refine ⟨_, k, hround, hk, hm2, ?_, ?_, ?_, hpf, ?_⟩
  · show w2.request.pid = -1
    rw [hr2]
  · show w2.mutex = w.mutex
    rw [hmu2]
    show w.mutex - 1 + 1 = w.mutex
    omega
  · show w2.m_response - 1 = w.m_response
    rw [hres2]
    show w.m_response + 1 - 1 = w.m_response
    omega
  · unfold faulted
    rw [hsub]
    by_cases hmiss : find_frame w.m p.id (value.tdiv p.p_size) = -1
    · have h := handle_request_miss _ tv_usec hm1 hmiss
      simp only [h, hmiss, decide_True]
    · have h := handle_request_hit _ tv_usec hm1 hmiss
      simp only [h, hmiss, decide_False]

/-- A condition that every round keeps holds after every run. -/
theorem run_invariant (I : shared_t → Prop) (ok : vpager_t × Int × Int → Prop)
    (hstep : ∀ w r, I w → ok r → ∃ w1, round w r.1 r.2.1 r.2.2 = some w1 ∧ I w1) :
    ∀ (reqs : List (vpager_t × Int × Int)) (w : shared_t), I w → (∀ r ∈ reqs, ok r) →
      ∃ w1, run w reqs = some w1 ∧ I w1 := by
  intro reqs
  induction reqs with
  | nil =>
    intro w h _
    exact ⟨w, rfl, h⟩
  | cons r rest ih =>
    intro w h hok
    obtain ⟨w1, h1, h2⟩ := hstep w r h (hok r (List.mem_cons_self r rest))
    obtain ⟨w2, h3, h4⟩ := ih w1 h2 (fun x hx => hok x (List.mem_cons_of_mem r hx))
    refine ⟨w2, ?_, h4⟩
    obtain ⟨p, value, tv_usec⟩ := r
    simp only [run, h1]
    exact h3

/-- The arrays of the initial table have the cells `0 .. F - 1`, all `-1`. -/
theorem main_init_cells (S P F n : Int) (r0 : prequest_t) :
    cells_exist (main_init S P F n r0).m ∧
    ∀ j : Nat, (j : Int) < F →
      (main_init S P F n r0).m.frames.getD j 0 = -1 ∧
      (main_init S P F n r0).m.pid.getD j 0 = -1 ∧
      (main_init S P F n r0).m.counters.getD j 0 = -1 := by
  constructor
  · intro j hj
    simp only [main_init, init_mmanager, List.length_replicate] at hj ⊢
    omega
  · intro j hj
    have hlt : j < F.toNat := by omega
    simp [main_init, init_mmanager, List.getD_eq_getElem?_getD, List.getElem?_replicate, hlt]

/-- The frame a round writes is a cell of the table when the table has one. -/
theorem round_frame_bounds (m : mmanager_t) (pid page : Int) (hF : 1 ≤ m.f_num) (k : Int)
    (hk : k = if find_frame m pid page = -1 then fault_frame m else find_frame m pid page) :
    ∃ kn : Nat, k = (kn : Int) ∧ (kn : Int) < m.f_num := by
  rcases find_frame_cases m pid page with ⟨h1, _⟩ | ⟨k1, h1, h2, _, _⟩
  · rw [if_pos h1] at hk
    obtain ⟨kn, e1, e2⟩ := fault_frame_bounds m hF
    exact ⟨kn, by rw [hk, e1], e2⟩
  · have hne : find_frame m pid page ≠ -1 := by rw [h1]; omega
    rw [if_neg hne, h1] at hk
    exact ⟨k1, hk, h2⟩

/-- One round keeps the cells of the table in place and leaves no pair
resident in two frames. -/
theorem round_no_double (w : shared_t) (p : vpager_t) (value tv_usec : Int)
    (h : (0 < w.mutex ∧ w.request.pid = -1) ∧ cells_exist w.m ∧ no_double w.m) :
    ∃ w1, round w p value tv_usec = some w1 ∧
      (0 < w1.mutex ∧ w1.request.pid = -1) ∧ cells_exist w1.m ∧ no_double w1.m := by
  obtain ⟨⟨hm, hreq⟩, hcells, hnd⟩ := h
  obtain ⟨w3, k, hr, hk, hm3, hreq3, hmu3, _, _, _⟩ := round_result w p value tv_usec hm hreq
  have hfn : w3.m.f_num = w.m.f_num := by rw [hm3]
  refine ⟨w3, hr, ⟨by rw [hmu3]; exact hm, hreq3⟩, ?_, ?_⟩
  · intro j hj
    rw [hfn] at hj
    rw [hm3]
    simp only [length_store]
    exact hcells j hj
  · intro i j hi hj hij hpi hboth
    rw [hfn] at hi hj
    obtain ⟨kn, e1, e2⟩ := round_frame_bounds w.m p.id (value.tdiv p.p_size) (by omega) k hk
    have hlen := hcells kn e2
    rcases find_frame_cases w.m p.id (value.tdiv p.p_size) with ⟨h1, h2⟩ | ⟨k1, h1, _, h3, _⟩
    · -- miss: no cell held the pair before, cell `kn` holds it now
      rw [hm3, e1] at hpi hboth
      simp only [] at hpi hboth
      by_cases hik : i = kn
      · subst hik
        have hjk : (j : Int) ≠ (i : Int) := by omega
        rw [getD_store_same _ i _ hlen.2.2, getD_store_same _ i _ hlen.1,
          getD_store_other _ _ _ j hjk, getD_store_other _ _ _ j hjk] at hboth
        exact h2 j hj ⟨hboth.2.symm, hboth.1.symm⟩
      · have hik' : (i : Int) ≠ (kn : Int) := by omega
        by_cases hjk : j = kn
        · subst hjk
          rw [getD_store_same _ j _ hlen.2.2, getD_store_same _ j _ hlen.1,
            getD_store_other _ _ _ i hik', getD_store_other _ _ _ i hik'] at hboth
          exact h2 i hi ⟨hboth.2, hboth.1⟩
        · have hjk' : (j : Int) ≠ (kn : Int) := by omega
          rw [getD_store_other _ _ _ i hik'] at hpi
          rw [getD_store_other _ _ _ i hik', getD_store_other _ _ _ i hik',
            getD_store_other _ _ _ j hjk', getD_store_other _ _ _ j hjk'] at hboth
          exact hnd i j hi hj hij hpi hboth
    · -- hit: the pages and the owners are written with the values they hold
      have hne : find_frame w.m p.id (value.tdiv p.p_size) ≠ -1 := by rw [h1]; omega
      rw [if_neg hne, h1] at hk
      have hf : w3.m.frames = w.m.frames := by
        rw [hm3, hk]
        exact store_same_value _ k1 _ (fun _ => h3.1)
      have hp : w3.m.pid = w.m.pid := by
        rw [hm3, hk]
        exact store_same_value _ k1 _ (fun _ => h3.2)
      rw [hf, hp] at hboth
      rw [hp] at hpi
      exact hnd i j hi hj hij hpi hboth

/-- C19: every sequence of requests is handled to the end from the state
`init_mmanager` builds, and in the table reached no (pid, page) pair is
resident in two frames at once: for all indices `i ≠ j` of the table with
`pid[i] ≠ -1`, it is not the case that `pid[i] = pid[j]` and
`frames[i] = frames[j]`.  The requests may come from any pagers. -/
theorem no_pair_in_two_frames (S P F n : Int) (r0 : prequest_t)
    (reqs : List (vpager_t × Int × Int)) :
    ∃ w, run (main_init S P F n r0) reqs = some w ∧
      ∀ i j : Nat, (i : Int) < w.m.f_num → (j : Int) < w.m.f_num → i ≠ j →
        w.m.pid.getD i 0 ≠ -1 →
        ¬ (w.m.pid.getD i 0 = w.m.pid.getD j 0 ∧
           w.m.frames.getD i 0 = w.m.frames.getD j 0) := by
  have hinit : (0 < (main_init S P F n r0).mutex ∧ (main_init S P F n r0).request.pid = -1) ∧
      cells_exist (main_init S P F n r0).m ∧ no_double (main_init S P F n r0).m := by
    refine ⟨⟨Nat.one_pos, rfl⟩, (main_init_cells S P F n r0).1, ?_⟩
    intro i j hi _ _ hpi
    exact absurd ((main_init_cells S P F n r0).2 i hi).2.1 hpi
  obtain ⟨w, h1, _, _, h2⟩ := run_invariant _ (fun _ => True)
    (fun w r hw _ => round_no_double w r.1 r.2.1 r.2.2 hw) reqs _ hinit (fun _ _ => trivial)
  exact ⟨w, h1, h2⟩

/-- One round with a page other than `-1`, a pid other than `-1` and a clock
reading other than `-1` keeps every entry fully empty or fully populated. -/
theorem round_entry_whole (w : shared_t) (p : vpager_t) (value tv_usec : Int)
    (h : (0 < w.mutex ∧ w.request.pid = -1) ∧ cells_exist w.m ∧
      ∀ j : Nat, (j : Int) < w.m.f_num → entry_whole w.m j)
    (hpid : p.id ≠ -1) (hpage : value.tdiv p.p_size ≠ -1) (ht : tv_usec ≠ -1) :
    ∃ w1, round w p value tv_usec = some w1 ∧
      (0 < w1.mutex ∧ w1.request.pid = -1) ∧ cells_exist w1.m ∧
      ∀ j : Nat, (j : Int) < w1.m.f_num → entry_whole w1.m j := by
  obtain ⟨⟨hm, hreq⟩, hcells, hwhole⟩ := h
  obtain ⟨w3, k, hr, hk, hm3, hreq3, hmu3, _, _, _⟩ := round_result w p value tv_usec hm hreq
  have hfn : w3.m.f_num = w.m.f_num := by rw [hm3]
  refine ⟨w3, hr, ⟨by rw [hmu3]; exact hm, hreq3⟩, ?_, ?_⟩
  · intro j hj
    rw [hfn] at hj
    rw [hm3]
    simp only [length_store]
    exact hcells j hj
  · intro j hj
    rw [hfn] at hj
    obtain ⟨kn, e1, _⟩ := round_frame_bounds w.m p.id (value.tdiv p.p_size) (by omega) k hk
    have hlen := hcells j hj
    unfold entry_whole
    rw [hm3, e1]
    simp only []
    by_cases hjk : j = kn
    · subst hjk
      right
      rw [getD_store_same _ j _ hlen.1, getD_store_same _ j _ hlen.2.2,
        getD_store_same _ j _ hlen.2.1]
      exact ⟨hpage, hpid, ht⟩
    · have hjk' : (j : Int) ≠ (kn : Int) := by omega
      rw [getD_store_other _ _ _ j hjk', getD_store_other _ _ _ j hjk',
        getD_store_other _ _ _ j hjk']
      exact hwhole j hj

/-- C14, as amended: from the state `init_mmanager` builds, every sequence of
requests from pagers with ids `≥ 1` and page size `≥ 1`, whose trace values
have a page number `value / p_size` other than `-1` (every non-negative value
does) and which are handled at clock readings `tv_usec ≥ 0`, is handled to the
end, and in the table reached every frame entry is either fully empty
(`frames[i] = -1`, `pid[i] = -1`, `counters[i] = -1`) or fully populated (none
of the three fields is `-1`). -/
theorem entries_whole_when_page_set (S P F n : Int) (r0 : prequest_t)
    (reqs : List (vpager_t × Int × Int))
    (hreqs : ∀ r ∈ reqs, 1 ≤ r.1.id ∧ 1 ≤ r.1.p_size ∧
      r.2.1.tdiv r.1.p_size ≠ -1 ∧ 0 ≤ r.2.2) :
    ∃ w, run (main_init S P F n r0) reqs = some w ∧
      ∀ j : Nat, (j : Int) < w.m.f_num →
        (w.m.frames.getD j 0 = -1 ∧ w.m.pid.getD j 0 = -1 ∧ w.m.counters.getD j 0 = -1) ∨
        (w.m.frames.getD j 0 ≠ -1 ∧ w.m.pid.getD j 0 ≠ -1 ∧ w.m.counters.getD j 0 ≠ -1) := by
  have hinit : (0 < (main_init S P F n r0).mutex ∧ (main_init S P F n r0).request.pid = -1) ∧
      cells_exist (main_init S P F n r0).m ∧
      ∀ j : Nat, (j : Int) < (main_init S P F n r0).m.f_num →
        entry_whole (main_init S P F n r0).m j := by
    refine ⟨⟨Nat.one_pos, rfl⟩, (main_init_cells S P F n r0).1, ?_⟩
    intro j hj
    left
    obtain ⟨a, b, c⟩ := (main_init_cells S P F n r0).2 j hj
    exact ⟨a, b, c⟩
  obtain ⟨w, h1, _, _, h2⟩ := run_invariant _
    (fun r => 1 ≤ r.1.id ∧ 1 ≤ r.1.p_size ∧ r.2.1.tdiv r.1.p_size ≠ -1 ∧ 0 ≤ r.2.2)
    (fun w r hw hok => round_entry_whole w r.1 r.2.1 r.2.2 hw
      (by have := hok.1; omega) hok.2.2.1 (by have := hok.2.2.2; omega))
    reqs _ hinit hreqs
  exact ⟨w, h1, h2⟩

theorem entries_whole_when_page_set_witness :
    (run (main_init 100 4 2 1 block0) [(pager1, 50, 10), (pager1, -250, 20)]).map
        (fun w => (w.m.frames, w.m.pid, w.m.counters)) = some ([0, -2], [1, 1], [10, 20]) ∧
    ∃ w, run (main_init 100 4 2 1 block0) [(pager1, 50, 10), (pager1, -250, 20)] = some w ∧
      ∀ j : Nat, (j : Int) < w.m.f_num →
        (w.m.frames.getD j 0 = -1 ∧ w.m.pid.getD j 0 = -1 ∧ w.m.counters.getD j 0 = -1) ∨
        (w.m.frames.getD j 0 ≠ -1 ∧ w.m.pid.getD j 0 ≠ -1 ∧ w.m.counters.getD j 0 ≠ -1) :=
  ⟨by decide,
   entries_whole_when_page_set 100 4 2 1 block0 [(pager1, 50, 10), (pager1, -250, 20)]
     (by decide)⟩

/-- Counterexample to C14 as stated.  Page size 100, two frames, pager 1
submits the trace value `-100`, whose page number is `-100 / 100 = -1`: frame 0
then has `frames[0] = -1` with `pid[0] = 1` and `counters[0] = 7`, neither
fully empty nor fully populated. -/
theorem entry_half_set_counterexample :
    (run (main_init 100 4 2 1 block0) [(pager1, -100, 7)]).map
        (fun w => (w.m.frames, w.m.pid, w.m.counters)) = some ([-1, -1], [1, -1], [7, -1]) ∧
    (run (main_init 100 4 2 1 block0) [(pager1, -100, 7)]).map
        (fun w => decide (entry_whole w.m 0)) = some false ∧
    pager1.id = 1 ∧ pager1.p_size = 100 := by
  decide

/-- The scan `find_free` returns `k` when cell `k` is the first empty one. -/
theorem find_free_eq_first (m : mmanager_t) (k : Nat)
    (hk : (k : Int) < m.f_num) (hempty : m.frames.getD k 0 = -1)
    (hfirst : ∀ j, j < k → m.frames.getD j 0 ≠ -1) :
    find_free m = (k : Int) := by
  rcases find_free_cases m with ⟨_, h2⟩ | ⟨k1, h1, _, h3, h4⟩
  · exact absurd hempty (h2 k hk)
  · rw [h1]
    have h5 : ¬ k1 < k := fun h => hfirst k1 h h3
    have h6 : ¬ k < k1 := fun h => h4 k h hempty
    have h7 : k1 = k := by omega
    rw [h7]

theorem note_pair_length (ds : List (Int × Int)) (q : Int × Int) :
    ds.length ≤ (note_pair ds q).length := by
  unfold note_pair
  split
  · exact le_refl _
  · simp

theorem foldl_note_pair_length (qs : List (Int × Int)) :
    ∀ ds : List (Int × Int), ds.length ≤ (qs.foldl note_pair ds).length := by
  induction qs with
  | nil => intro ds; exact le_refl _
  | cons q qs ih =>
    intro ds
    exact le_trans (note_pair_length ds q) (ih (note_pair ds q))

theorem position_of_mem (q : Int × Int) : ∀ ds : List (Int × Int), q ∈ ds →
    position q ds < ds.length ∧ ds[position q ds]? = some q ∧
    ∀ (j : Nat) (x : Int × Int), j < position q ds → ds[j]? = some x → x ≠ q := by
  intro ds
  induction ds with
  | nil => intro h; simp at h
  | cons x xs ih =>
    intro h
    by_cases hx : x = q
    · have hp : position q (x :: xs) = 0 := by simp only [position, if_pos hx]
      rw [hp]
      refine ⟨by simp, by simp [hx], ?_⟩
      intro j y hj
      omega
    · have hp : position q (x :: xs) = position q xs + 1 := by
        simp only [position, if_neg hx]
      have hmem : q ∈ xs := by
        rcases List.mem_cons.1 h with h1 | h1
        · exact absurd h1.symm hx
        · exact h1
      obtain ⟨h1, h2, h3⟩ := ih hmem
      rw [hp]
      refine ⟨by simp; omega, by simpa using h2, ?_⟩
      intro j y hj hy
      cases j with
      | zero =>
        simp only [List.getElem?_cons_zero, Option.some.injEq] at hy
        rw [← hy]; exact hx
      | succ j =>
        simp only [List.getElem?_cons_succ] at hy
        exact h3 j y (by omega) hy

theorem position_of_not_mem (q : Int × Int) : ∀ ds : List (Int × Int), q ∉ ds →
    position q (ds ++ [q]) = ds.length := by
  intro ds
  induction ds with
  | nil => intro _; simp [position]
  | cons x xs ih =>
    intro h
    have hx : x ≠ q := fun e => h (e ▸ List.mem_cons_self x xs)
    have hxs : q ∉ xs := fun e => h (List.mem_cons_of_mem x e)
    have hp : position q (x :: xs ++ [q]) = position q (xs ++ [q]) + 1 := by
      show position q (x :: (xs ++ [q])) = position q (xs ++ [q]) + 1
      simp only [position, if_neg hx]
    rw [hp, ih hxs, List.length_cons]

/-- One round from a table loaded in order: a pair already loaded is a hit on
its frame, a new pair faults into the first empty frame, the one after the
frames loaded so far. -/
theorem round_loaded_in_order (w : shared_t) (ds : List (Int × Int)) (p : vpager_t)
    (value tv_usec : Int) (h : loaded_in_order w ds)
    (hpage : value.tdiv p.p_size ≠ -1)
    (hroom : ((note_pair ds (p.id, value.tdiv p.p_size)).length : Int) ≤ w.m.f_num) :
    ∃ w1, round w p value tv_usec = some w1 ∧
      loaded_in_order w1 (note_pair ds (p.id, value.tdiv p.p_size)) ∧
      w1.m.f_num = w.m.f_num ∧
      w1.PHYSICAL_FRAME =
        ((position (p.id, value.tdiv p.p_size)
          (note_pair ds (p.id, value.tdiv p.p_size)) : Nat) : Int) ∧
      faulted w p value tv_usec = decide ((p.id, value.tdiv p.p_size) ∉ ds) := by
  obtain ⟨hm, hreq, hcells, hlen, hload, hempty, hnd, hpages⟩ := h
  obtain ⟨w3, k, hr, hk, hm3, hreq3, hmu3, _, hpf, hfl⟩ :=
    round_result w p value tv_usec hm hreq
  have hfn : w3.m.f_num = w.m.f_num := by rw [hm3]
  have hcells3 : cells_exist w3.m := by
    intro j hj
    rw [hfn] at hj
    rw [hm3]
    simp only [length_store]
    exact hcells j hj
  by_cases hq : (p.id, value.tdiv p.p_size) ∈ ds
  · -- the pair is loaded: a hit on its frame
    have hnote : note_pair ds (p.id, value.tdiv p.p_size) = ds := by
      unfold note_pair; rw [if_pos hq]
    rw [hnote]
    obtain ⟨hidx, hget, hbefore⟩ := position_of_mem (p.id, value.tdiv p.p_size) ds hq
    have hcell := hload _ _ hget
    have hfirst : ∀ j, j < position (p.id, value.tdiv p.p_size) ds →
        ¬ holds w.m p.id (value.tdiv p.p_size) j := by
      intro j hj hh
      have hjl : j < ds.length := by omega
      have hc := hload j ds[j] (List.getElem?_eq_getElem hjl)
      have hdj : ds[j] = (p.id, value.tdiv p.p_size) :=
        Prod.ext (by rw [← hc.1]; exact hh.2) (by rw [← hc.2]; exact hh.1)
      exact hbefore j ds[j] hj (List.getElem?_eq_getElem hjl) hdj
    have hfind : find_frame w.m p.id (value.tdiv p.p_size) =
        ((position (p.id, value.tdiv p.p_size) ds : Nat) : Int) :=
      find_frame_eq_first w.m _ _ _ (by omega) ⟨hcell.2, hcell.1⟩ hfirst
    have hne : find_frame w.m p.id (value.tdiv p.p_size) ≠ -1 := by rw [hfind]; omega
    rw [if_neg hne, hfind] at hk
    have hf : w3.m.frames = w.m.frames := by
      rw [hm3, hk]
      exact store_same_value _ _ _ (fun _ => hcell.2)
    have hp : w3.m.pid = w.m.pid := by
      rw [hm3, hk]
      exact store_same_value _ _ _ (fun _ => hcell.1)
    refine ⟨w3, hr, ⟨by rw [hmu3]; exact hm, hreq3, hcells3, by rw [hfn]; exact hlen,
      ?_, ?_, hnd, hpages⟩, hfn, by rw [hpf, hk], ?_⟩
    · intro j q hjq
      rw [hf, hp]
      exact hload j q hjq
    · intro j hj1 hj2
      rw [hfn] at hj2
      rw [hf]
      exact hempty j hj1 hj2
    · rw [hfl]
      simp [hne, hq]
  · -- the pair is new: a fault into the first empty frame
    have hnote : note_pair ds (p.id, value.tdiv p.p_size) = ds ++ [(p.id, value.tdiv p.p_size)] := by
      unfold note_pair; rw [if_neg hq]
    rw [hnote] at hroom ⊢
    have hd : ((ds.length : Nat) : Int) < w.m.f_num := by
      simp only [List.length_append, List.length_singleton] at hroom
      omega
    have hmiss : find_frame w.m p.id (value.tdiv p.p_size) = -1 := by
      rcases find_frame_cases w.m p.id (value.tdiv p.p_size) with ⟨h1, _⟩ | ⟨k1, _, h2, h3, _⟩
      · exact h1
      · exfalso
        by_cases hk1 : k1 < ds.length
        · have hc := hload k1 ds[k1] (List.getElem?_eq_getElem hk1)
          have hdj : ds[k1] = (p.id, value.tdiv p.p_size) :=
            Prod.ext (by rw [← hc.1]; exact h3.2) (by rw [← hc.2]; exact h3.1)
          exact hq (hdj ▸ List.getElem_mem hk1)
        · have := hempty k1 (by omega) h2
          rw [h3.1] at this
          exact hpage this
    have hfree : find_free w.m = ((ds.length : Nat) : Int) := by
      apply find_free_eq_first w.m ds.length hd (hempty ds.length (le_refl _) hd)
      intro j hj
      have hc := hload j ds[j] (List.getElem?_eq_getElem hj)
      rw [hc.2]
      exact hpages ds[j] (List.getElem_mem hj)
    have hkd : k = ((ds.length : Nat) : Int) := by
      rw [hk, if_pos hmiss]
      unfold fault_frame
      rw [hfree, if_neg (by omega)]
    have hlend := hcells ds.length hd
    refine ⟨w3, hr, ⟨by rw [hmu3]; exact hm, hreq3, hcells3, by rw [hfn]; exact hroom,
      ?_, ?_, ?_, ?_⟩, hfn, ?_, ?_⟩
    · intro j q hjq
      rw [hm3, hkd]
      simp only []
      rw [List.getElem?_append] at hjq
      by_cases hj : j < ds.length
      · rw [if_pos hj] at hjq
        have hjk : (j : Int) ≠ ((ds.length : Nat) : Int) := by omega
        rw [getD_store_other _ _ _ j hjk, getD_store_other _ _ _ j hjk]
        exact hload j q hjq
      · rw [if_neg hj] at hjq
        have hjd : j = ds.length := by
          by_contra hne
          have hpos : 0 < j - ds.length := by omega
          obtain ⟨i, hi⟩ : ∃ i, j - ds.length = i + 1 := ⟨j - ds.length - 1, by omega⟩
          rw [hi] at hjq
          simp at hjq
        subst hjd
        simp only [Nat.sub_self, List.getElem?_cons_zero, Option.some.injEq] at hjq
        rw [getD_store_same _ _ _ hlend.2.2, getD_store_same _ _ _ hlend.1, ← hjq]
        exact ⟨rfl, rfl⟩
    · intro j hj1 hj2
      rw [hfn] at hj2
      simp only [List.length_append, List.length_singleton] at hj1
      rw [hm3, hkd]
      simp only []
      have hjk : (j : Int) ≠ ((ds.length : Nat) : Int) := by omega
      rw [getD_store_other _ _ _ j hjk]
      exact hempty j (by omega) hj2
    · rw [List.nodup_append]
      refine ⟨hnd, List.nodup_singleton _, ?_⟩
      intro a ha hb
      rw [List.mem_singleton] at hb
      exact hq (hb ▸ ha)
    · intro q hqm
      rw [List.mem_append, List.mem_singleton] at hqm
      rcases hqm with hqm | hqm
      · exact hpages q hqm
      · rw [hqm]; exact hpage
    · rw [hpf, hkd, position_of_not_mem _ ds hq]
    · rw [hfl]
      simp [hmiss, hq]

/-- The outcomes of a run from a table loaded in order are the expected ones. -/
theorem run_outcomes_loaded : ∀ (reqs : List (vpager_t × Int × Int)) (w : shared_t)
    (ds : List (Int × Int)), loaded_in_order w ds →
    (∀ r ∈ reqs, (pair_of r).2 ≠ -1) →
    (((reqs.map pair_of).foldl note_pair ds).length : Int) ≤ w.m.f_num →
    run_outcomes w reqs = some (expected_outcomes ds reqs) := by
  intro reqs
  induction reqs with
  | nil =>
    intro w ds _ _ _
    rfl
  | cons r rest ih =>
    intro w ds h hpages hroom
    obtain ⟨p, value, tv_usec⟩ := r
    have hpage : value.tdiv p.p_size ≠ -1 := hpages (p, value, tv_usec) (List.mem_cons_self _ _)
    simp only [List.map_cons, List.foldl_cons] at hroom
    have hroom1 : ((note_pair ds (p.id, value.tdiv p.p_size)).length : Int) ≤ w.m.f_num := by
      have := foldl_note_pair_length (rest.map pair_of) (note_pair ds (pair_of (p, value, tv_usec)))
      have e : pair_of (p, value, tv_usec) = (p.id, value.tdiv p.p_size) := rfl
      rw [e] at this hroom
      omega
    obtain ⟨w1, h1, h2, h3, h4, h5⟩ := round_loaded_in_order w ds p value tv_usec h hpage hroom1
    have hrest := ih w1 (note_pair ds (p.id, value.tdiv p.p_size)) h2
      (fun x hx => hpages x (List.mem_cons_of_mem _ hx)) (by rw [h3]; exact hroom)
    simp only [run_outcomes, h1, hrest, Option.map_some', expected_outcomes, h4, h5]
    rfl

/-- C13: from the empty table `init_mmanager` builds with `F` frames, a
sequence of requests with non-negative addresses (page size `≥ 1`) that names
at most `F` distinct (pid, page) pairs is handled to the end, the `j`-th
distinct pair (counting from 0) faults into frame `j`, and every later request
for a pair already loaded is a hit that publishes the frame that pair was
loaded into and causes no fault.  Scenario A is the witness. -/
theorem distinct_pairs_load_in_order (S P F n : Int) (r0 : prequest_t)
    (reqs : List (vpager_t × Int × Int))
    (hreqs : ∀ r ∈ reqs, 1 ≤ r.1.p_size ∧ 0 ≤ r.2.1)
    (hF : ((first_seen (reqs.map pair_of)).length : Int) ≤ F) :
    run_outcomes (main_init S P F n r0) reqs = some (expected_outcomes [] reqs) := by
  have hF0 : 0 ≤ F := le_trans (Int.natCast_nonneg _) hF
  have hinit : loaded_in_order (main_init S P F n r0) [] := by
    refine ⟨Nat.one_pos, rfl, (main_init_cells S P F n r0).1, hF0, ?_, ?_,
      List.nodup_nil, ?_⟩
    · intro j q hjq
      simp at hjq
    · intro j _ hj
      exact ((main_init_cells S P F n r0).2 j hj).1
    · intro q hq
      simp at hq
  apply run_outcomes_loaded reqs _ [] hinit
  · intro r hr
    obtain ⟨h1, h2⟩ := hreqs r hr
    have h3 : 0 ≤ r.2.1.tdiv r.1.p_size := Int.tdiv_nonneg h2 (by omega)
    show r.2.1.tdiv r.1.p_size ≠ -1
    omega
  · exact hF

theorem distinct_pairs_load_in_order_witness :
    expected_outcomes [] [(pager1, 50, 10), (pager1, 150, 20), (pager1, 50, 30)] =
      [(0, true), (1, true), (0, false)] ∧
    run_outcomes (main_init 100 4 2 1 block0)
        [(pager1, 50, 10), (pager1, 150, 20), (pager1, 50, 30)] =
      some (expected_outcomes [] [(pager1, 50, 10), (pager1, 150, 20), (pager1, 50, 30)]) :=
  ⟨by decide,
   distinct_pairs_load_in_order 100 4 2 1 block0
     [(pager1, 50, 10), (pager1, 150, 20), (pager1, 50, 30)] (by decide) (by decide)⟩

end VMsim
